import Mathlib

/-!
Verification development for the statement-parsing core of the
email-PDF-processor repository (`src/main.py`, class `PDFDataExtractor`).

The Python code is shallowly embedded:
* strings are `List Char`; a document is the list of its pages' extracted
  texts (the text handed back by `page.extract_text()` for each page);
* Python `float` values are modelled as exact rationals `ℚ`.  Every numeric
  string this program feeds to `float(...)` on its non-exceptional paths is a
  plain decimal literal, which `ℚ` represents exactly.  Python's `str` of a
  float is modelled only through its observable uses here: it is non-empty,
  it never equals the literal strings `"0.00"` or `"0"`, and `float(str(x))`
  round-trips to `x`.  The special spellings `inf`/`nan` and underscored
  literals accepted by Python's `float` carry no exact rational value, so
  `pyFloat` computes values only for plain finite literals, while acceptance
  of `float(...)` — which matters on the tier-3 total text fed to
  `float(total)` — is modelled in full by the separate test `pyFloatOK`
  (validated underscores stripped, then the plain grammar or an `inf`/`nan`
  spelling); `pyFloat` is `none` on everything `pyFloatOK` rejects, and the
  running-total claims restrict their unparseable-total case by `pyFloatOK`;
* `re` patterns are embedded as explicit backtracking matchers following
  Python's leftmost / greedy / lazy priorities for the concrete patterns that
  occur in the source;
* the `pandas` pipeline of `process_single_pdf` (column selection,
  `to_datetime(errors='coerce')`, `sort_values`, `strftime`) is embedded with
  an explicit stable sort; the claims proved below do not depend on the order
  of tied rows, which pandas' quicksort leaves unspecified.
-/

/-- Python `\s` on the ASCII range (the pattern inputs here are ASCII). -/
def isWS (c : Char) : Bool :=
  c = ' ' || c = '\t' || c = '\n' || c = '\r' || c = '\x0b' || c = '\x0c'

/-- Python `\d` (ASCII). -/
def isDigitCh (c : Char) : Bool :=
  '0' ≤ c && c ≤ '9'

/-- Python `\w` (ASCII): letters, digits, underscore. -/
def wordCh (c : Char) : Bool :=
  ('a' ≤ c && c ≤ 'z') || ('A' ≤ c && c ≤ 'Z') || isDigitCh c || c = '_'

/-- Character class `[\d,]` used by the amount patterns. -/
def isDigComma (c : Char) : Bool :=
  isDigitCh c || c = ','

/-- Python `str.strip()`: drop leading and trailing whitespace. -/
def pyStrip (cs : List Char) : List Char :=
  ((cs.dropWhile isWS).reverse.dropWhile isWS).reverse

/-- Python `str.replace(',', '')`. -/
def stripCommas (cs : List Char) : List Char :=
  cs.filter (fun c => c ≠ ',')

/-- Python `text.split('\n')`: splitting the empty string yields `[""]`. -/
def splitLinesAux (cur : List Char) : List Char → List (List Char)
  | [] => [cur.reverse]
  | c :: cs =>
    if c = '\n' then cur.reverse :: splitLinesAux [] cs
    else splitLinesAux (c :: cur) cs

/-- Python `text.split('\n')`. -/
def splitLines (cs : List Char) : List (List Char) :=
  splitLinesAux [] cs

/-- Python `'\n'.join(lines)`. -/
def joinLines (ls : List (List Char)) : List Char :=
  match ls with
  | [] => []
  | l :: rest => rest.foldl (fun acc x => acc ++ '\n' :: x) l

/-- Boolean list-prefix test used by the substring search. -/
def isPre : List Char → List Char → Bool
  | [], _ => true
  | _ :: _, [] => false
  | a :: as, b :: bs => a = b && isPre as bs

/-- Python `hay.find(needle)`: index of the first occurrence, `none` for `-1`. -/
def findSub : List Char → List Char → Option Nat
  | [], needle => if isPre needle [] then some 0 else none
  | c :: t, needle =>
    if isPre needle (c :: t) then some 0
    else (findSub t needle).map (fun i => i + 1)

/-- Python `needle in hay`. -/
def containsSub (needle hay : List Char) : Bool :=
  (findSub hay needle).isSome

/-- Python `text[:text.find(line)]` (slice up to `-1`, i.e. all but the last
character, when the needle is absent). -/
def sliceBeforeFirst (text line : List Char) : List Char :=
  match findSub text line with
  | some i => text.take i
  | none => text.take (text.length - 1)

/-- First `some` produced by `f` along a list, in order. -/
def firstSome (f : α → Option β) : List α → Option β
  | [] => none
  | a :: as =>
    match f a with
    | some b => some b
    | none => firstSome f as

/-- The list `[n, n-1, ..., 1]`: the order in which a greedy `\s+` hands back
characters while backtracking. -/
def countdown : Nat → List Nat
  | 0 => []
  | n + 1 => (n + 1) :: countdown n

/-! ## Section segmentation (`PDFDataExtractor.extract_store_sections`) -/

/-- The marker token tested against the text preceding a header line. -/
def remittanceTok : List Char := "REMITTANCE".toList

/-- The column-header marker that switches capture on. -/
def dateAmountTotalTok : List Char := "Date Amount Total".toList

/-- The reconciling-items marker that switches capture off. -/
def totalAsPerStatementTok : List Char := "TOTAL AS PER STATEMENT".toList

/-- Attempt of `\s+t/a\s+-\s+(.*?)$` anchored at the current position (which
must start with whitespace); returns group 2, the rest of the line after the
maximal whitespace run following `-`. -/
def hcTry (cs : List Char) : Option (List Char) :=
  let cs1 := cs.dropWhile isWS
  if (cs.takeWhile isWS).isEmpty then none
  else
    match cs1 with
    | 't' :: '/' :: 'a' :: cs2 =>
      if (cs2.takeWhile isWS).isEmpty then none
      else
        match cs2.dropWhile isWS with
        | '-' :: cs3 =>
          if (cs3.takeWhile isWS).isEmpty then none
          else some (cs3.dropWhile isWS)
        | _ => none
    | _ => none

/-- Scan of `re.search(r'(.*?)\s+t/a\s+-\s+(.*?)$', line)`: the lazy group 1
moves the attempt position left to right; the first position whose tail
matches wins.  Returns group 2. -/
def hcScan : List Char → Option (List Char)
  | [] => none
  | c :: cs =>
    match hcTry (c :: cs) with
    | some g2 => some g2
    | none => hcScan cs

/-- Group 2 of the store-header pattern, or `none` when the line is not a
header. -/
def headerCapture (line : List Char) : Option (List Char) :=
  hcScan line

/-- Python truthiness of the optional `current_store` string. -/
def truthyStr : Option (List Char) → Bool
  | none => false
  | some s => !s.isEmpty

/-- Insertion-ordered dictionary update: `store_sections[k] = v`. -/
def insertStore (k v : List Char) : List (List Char × List Char) → List (List Char × List Char)
  | [] => [(k, v)]
  | (k', v') :: rest =>
    if k' = k then (k, v) :: rest else (k', v') :: insertStore k v rest

/-- Loop state of `extract_store_sections`. -/
structure SegState where
  sections : List (List Char × List Char)
  current : Option (List Char)
  content : List (List Char)
  capture : Bool
deriving DecidableEq, Repr

/-- The header-boundary test of the source: the line matches the store-header
pattern and `"REMITTANCE" in text[:text.find(line)]` holds, where `text` is
the current page's text. -/
def segBoundary (text line : List Char) : Bool :=
  (headerCapture line).isSome && containsSub remittanceTok (sliceBeforeFirst text line)

/-- Effect of an accepted header line: finalise a truthy, non-empty current
entity, then open the new one with capture off. -/
def applyHeader (st : SegState) (g2 : List Char) : SegState :=
  { sections :=
      match st.current with
      | some s =>
        if !s.isEmpty && !st.content.isEmpty then
          insertStore s (joinLines st.content) st.sections
        else st.sections
      | none => st.sections
    current := some (pyStrip g2)
    content := []
    capture := false }

/-- The part of the line loop after the header check: the `Date Amount Total`
marker switches capture on and is consumed (`continue`); the
`TOTAL AS PER STATEMENT` marker switches capture off; while capture is on and
an entity is current, the line is appended verbatim. -/
def segAfterHeader (st1 : SegState) (line : List Char) : SegState :=
  if truthyStr st1.current && containsSub dateAmountTotalTok line then
    { st1 with capture := true }
  else
    let st2 :=
      if truthyStr st1.current && containsSub totalAsPerStatementTok line then
        { st1 with capture := false }
      else st1
    if truthyStr st2.current && st2.capture then
      { st2 with content := st2.content ++ [line] }
    else st2

/-- One iteration of the line loop of `extract_store_sections`; `text` is the
current page's text. -/
def segLine (text : List Char) (st : SegState) (line : List Char) : SegState :=
  let st1 :=
    match headerCapture line with
    | some g2 =>
      if containsSub remittanceTok (sliceBeforeFirst text line) then applyHeader st g2
      else st
    | none => st
  segAfterHeader st1 line

/-- Per-page processing: split the page text into lines and run the line loop. -/
def segPage (st : SegState) (text : List Char) : SegState :=
  (splitLines text).foldl (segLine text) st

/-- Finalisation at end of input: store the still-open entity if it has body. -/
def segFinish (st : SegState) : List (List Char × List Char) :=
  match st.current with
  | some s =>
    if !s.isEmpty && !st.content.isEmpty then
      insertStore s (joinLines st.content) st.sections
    else st.sections
  | none => st.sections

/-- `PDFDataExtractor.extract_store_sections`: a document is the list of its
pages' extracted texts. -/
def extract_store_sections (doc : List (List Char)) : List (List Char × List Char) :=
  segFinish (doc.foldl segPage ⟨[], none, [], false⟩)

/-! ## Transaction-line patterns (`PDFDataExtractor.parse_store_transactions`)

The three tiers share the skeleton
`^(\d{1,2}-\w{3}-\d{4})\s+(.*?)\s+([+-]?[\d,]+\.\d{2})\s+(G4)$` and differ
only in the fourth group `G4`:
tier 1 has `(\.\d{2}|\d*\.\d{2})`, tier 2 has `([+-]?[\d,]+\.\d{2})`,
tier 3 has `(.*?)`. -/

/-- Body of the date token after the day digits: `-\w{3}-\d{4}`.  Returns the
consumed characters and the rest. -/
def dateBody : List Char → Option (List Char × List Char)
  | a :: c :: d :: e :: b :: f :: g :: h :: i :: rest =>
    if a = '-' && wordCh c && wordCh d && wordCh e && b = '-' &&
        isDigitCh f && isDigitCh g && isDigitCh h && isDigitCh i then
      some ([a, c, d, e, b, f, g, h, i], rest)
    else none
  | _ => none

/-- Anchored match of the leading `\d{1,2}-\w{3}-\d{4}`; the greedy two-digit
day is tried first (backtracking to one digit can never succeed once two
digits are present, since the next character would have to be both a digit and
`-`). -/
def takeDate : List Char → Option (List Char × List Char)
  | c1 :: c2 :: cs =>
    if isDigitCh c1 then
      if isDigitCh c2 then
        match dateBody cs with
        | some (body, rest) => some (c1 :: c2 :: body, rest)
        | none => none
      else
        match dateBody (c2 :: cs) with
        | some (body, rest) => some (c1 :: body, rest)
        | none => none
    else none
  | _ => none

/-- Tier-1 fourth group `(\.\d{2}|\d*\.\d{2})` as an anchored whole-string
test. -/
def g4Tier1 (t : List Char) : Bool :=
  match t.dropWhile isDigitCh with
  | e :: a :: b :: rest => e = '.' && isDigitCh a && isDigitCh b && rest.isEmpty
  | _ => false

/-- Tier-2 fourth group `([+-]?[\d,]+\.\d{2})` as an anchored whole-string
test; this is also the shape of the amount group. -/
def signedSepDec : List Char → Bool
  | [] => false
  | c :: rest =>
    let body := if c = '+' || c = '-' then rest else c :: rest
    let run := body.takeWhile isDigComma
    !run.isEmpty &&
      match body.dropWhile isDigComma with
      | e :: a :: b :: tail => e = '.' && isDigitCh a && isDigitCh b && tail.isEmpty
      | _ => false

/-- Tier-3 fourth group `(.*?)` anchored by `$`: accepts anything. -/
def g4Tier3 (_ : List Char) : Bool :=
  true

/-- Inner step of the deterministic tail: the amount's mandatory `.` and two
decimals, the greedy `\s+` before group 4, and the group-4 test, applied to
the characters following the `[\d,]+` run. -/
def tryTailNum (check : List Char → Bool) (sgn run : List Char) :
    List Char → Option (List Char × List Char)
  | e :: a :: b :: tail =>
    if e = '.' && isDigitCh a && isDigitCh b then
      if (tail.takeWhile isWS).isEmpty then none
      else if check (tail.dropWhile isWS) then
        some (sgn ++ run ++ e :: a :: b :: [], tail.dropWhile isWS)
      else none
    else none
  | _ => none

/-- The greedy `[\d,]+` run of the amount (which must be non-empty), then
`tryTailNum` on what follows it. -/
def tryTailBody (check : List Char → Bool) (sgn body : List Char) :
    Option (List Char × List Char) :=
  if (body.takeWhile isDigComma).isEmpty then none
  else tryTailNum check sgn (body.takeWhile isDigComma) (body.dropWhile isDigComma)

/-- After the greedy `\s+`: the optional sign `[+-]?` (consumed exactly when
present), then the amount body. -/
def tryTailAfterWS (check : List Char → Bool) : List Char → Option (List Char × List Char)
  | [] => none
  | c :: cs2 =>
    if c = '+' || c = '-' then tryTailBody check [c] cs2
    else tryTailBody check [] (c :: cs2)

/-- The deterministic tail `\s+([+-]?[\d,]+\.\d{2})\s+(G4)$` starting right
after the lazy description group.  Greedy `\s+` before a group that cannot
start with whitespace, and greedy `[\d,]+` followed by a mandatory `.`, admit
no backtracking, so the only choice points of the whole pattern are in
`searchDesc` below.  Returns the amount group and group 4. -/
def tryTail (check : List Char → Bool) (cs : List Char) : Option (List Char × List Char) :=
  if (cs.takeWhile isWS).isEmpty then none
  else tryTailAfterWS check (cs.dropWhile isWS)

/-- Backtracking over the two real choice points after the date: the greedy
`\s+` (longest first) and the lazy description `(.*?)` (shortest first).
Python's engine backtracks the most recent choice point first, so the
description varies fastest.  Returns (description, amount, group 4). -/
def searchDesc (check : List Char → Bool) (rest : List Char) :
    Option (List Char × List Char × List Char) :=
  firstSome
    (fun w1 =>
      let after := rest.drop w1
      firstSome
        (fun dl =>
          match tryTail check (after.drop dl) with
          | some (a, t) => some (after.take dl, a, t)
          | none => none)
        (List.range (after.length + 1)))
    (countdown (rest.takeWhile isWS).length)

/-- Anchored match of one pattern tier: date, then the backtracking search for
description / amount / group 4.  Returns the four groups. -/
def tierMatch (check : List Char → Bool) (line : List Char) :
    Option (List Char × List Char × List Char × List Char) :=
  match takeDate line with
  | some (d, rest) =>
    match searchDesc check rest with
    | some (x, a, t) => some (d, x, a, t)
    | none => none
  | none => none

/-- `pattern1_match`. -/
def pattern1 (line : List Char) : Option (List Char × List Char × List Char × List Char) :=
  tierMatch g4Tier1 line

/-- `pattern2_match`. -/
def pattern2 (line : List Char) : Option (List Char × List Char × List Char × List Char) :=
  tierMatch signedSepDec line

/-- `pattern3_match`. -/
def pattern3 (line : List Char) : Option (List Char × List Char × List Char × List Char) :=
  tierMatch g4Tier3 line

/-- `match = pattern1_match or pattern2_match or pattern3_match`. -/
def lineMatch (line : List Char) : Option (List Char × List Char × List Char × List Char) :=
  match pattern1 line with
  | some r => some r
  | none =>
    match pattern2 line with
    | some r => some r
    | none => pattern3 line

/-! ## Numeric parsing (`float`, `re.findall(r'[+-]?[\d,]+\.\d+', ...)`) -/

/-- Value of a digit string. -/
def digitsVal (ds : List Char) : Nat :=
  ds.foldl (fun a c => a * 10 + (c.toNat - '0'.toNat)) 0

/-- Exponent suffix of a Python float literal: empty, or `[eE][+-]?\d+`. -/
def parseExp : List Char → Option Int
  | [] => some 0
  | c :: rest =>
    if c = 'e' || c = 'E' then
      match rest with
      | [] => none
      | c2 :: r2 =>
        let s : Int := if c2 = '-' then -1 else 1
        let ds := if c2 = '-' || c2 = '+' then r2 else c2 :: r2
        if !ds.isEmpty && ds.all isDigitCh then some (s * digitsVal ds) else none
    else none

/-- Mantissa-and-exponent value. -/
def floatVal (neg : Bool) (intPart fracPart : List Char) (e : Int) : ℚ :=
  let m : ℚ := (digitsVal intPart : ℚ) + (digitsVal fracPart : ℚ) / 10 ^ fracPart.length
  let v : ℚ := if 0 ≤ e then m * 10 ^ e.toNat else m / 10 ^ (-e).toNat
  if neg then -v else v

/-- Significand-and-exponent body after the optional sign. -/
def pyFloatBody (neg : Bool) (body : List Char) : Option ℚ :=
  let intPart := body.takeWhile isDigitCh
  let r1 := body.dropWhile isDigitCh
  let fracPart :=
    match r1 with
    | '.' :: t => t.takeWhile isDigitCh
    | _ => []
  let r2 :=
    match r1 with
    | '.' :: t => t.dropWhile isDigitCh
    | _ => r1
  if intPart.isEmpty && fracPart.isEmpty then none
  else
    match parseExp r2 with
    | none => none
    | some e => some (floatVal neg intPart fracPart e)

/-- Python `float(s)` on plain finite decimal literals (see the header note:
the `inf`/`nan` spellings and underscored literals carry no exact rational
value and yield `none` here; `pyFloatOK` below decides full acceptance). -/
def pyFloat (cs : List Char) : Option ℚ :=
  match pyStrip cs with
  | [] => none
  | c :: rest =>
    if c = '-' then pyFloatBody true rest
    else if c = '+' then pyFloatBody false rest
    else pyFloatBody false (c :: rest)

/-- Anchored attempt of `[+-]?[\d,]+\.\d+` at the current position: the greedy
`[\d,]+` followed by the mandatory `.` admits no backtracking. -/
def tryNumAt (cs : List Char) : Option (List Char) :=
  match cs with
  | [] => none
  | c :: cs2 =>
    let sgn : List Char := if c = '+' || c = '-' then [c] else []
    let body := if c = '+' || c = '-' then cs2 else c :: cs2
    let run := body.takeWhile isDigComma
    if run.isEmpty then none
    else
      match body.dropWhile isDigComma with
      | '.' :: t =>
        let frac := t.takeWhile isDigitCh
        if frac.isEmpty then none else some (sgn ++ run ++ '.' :: frac)
      | _ => none

/-- First match of `re.findall(r'[+-]?[\d,]+\.\d+', s)` (only `numbers[0]` is
used by the source). -/
def firstNum : List Char → Option (List Char)
  | [] => none
  | c :: cs =>
    match tryNumAt (c :: cs) with
    | some m => some m
    | none => firstNum cs

/-! ## Transaction records and classification -/

/-- The `Transaction_Type` values. -/
inductive TType where
  | Invoice
  | Credit
  | Reversal
  | Rebate
deriving DecidableEq, Repr

/-- Substring looked for by the reversal rule (upstream misspelling). -/
def revesalTok : List Char := "Revesal".toList

/-- Substring looked for by the reversal rule (correct spelling). -/
def reversalTok : List Char := "Reversal".toList

/-- Substring of the rebate override. -/
def mondelezTok : List Char := "TRG - CA SALES - MONDELEZ".toList

/-- Substring that makes a line be skipped. -/
def preparedByTok : List Char := "Prepared by".toList

/-- Transaction-type classification exactly as in the source: reversal by
description, else credit by negative amount, else invoice; then the Mondelez
rebate override replaces whatever was chosen. -/
def classify (description : List Char) (amount : ℚ) : TType :=
  let t :=
    if containsSub revesalTok description || containsSub reversalTok description then
      TType.Reversal
    else if amount < 0 then TType.Credit
    else TType.Invoice
  if containsSub mondelezTok description then TType.Rebate else t

/-- One parsed transaction, before the orchestration step. -/
structure PTxn where
  Store : List Char
  Date : List Char
  Description : List Char
  Amount : ℚ
  Running_Total : ℚ
  Transaction_Type : TType
deriving DecidableEq, Repr

/-- The literal string `"0.00"`. -/
def zeroCC : List Char := "0.00".toList

/-- The literal string `"0"`. -/
def zeroC : List Char := "0".toList

/-- Normalisation of group 4 into the `total` variable: `None` for an absent
or falsy group, else strip, prepend `0` to a bare fraction, drop commas. -/
def normTotal (g4 : List Char) : Option (List Char) :=
  if g4.isEmpty then none
  else
    let t := pyStrip g4
    if t.isEmpty then none
    else
      let t1 :=
        match t with
        | '.' :: _ => '0' :: t
        | _ => t
      some (stripCommas t1)

/-- The `total` variable after the repair step: still absent, still the
string from the line, or a number produced by `str(running_total +
float(amount))`.  The third constructor records the exact rational; its
Python `str` image is non-empty, differs from `"0.00"` and `"0"`, and
round-trips through `float` (see the header note). -/
inductive TotalV where
  | noneV
  | strV (s : List Char)
  | numV (q : ℚ)
deriving DecidableEq, Repr

/-- The test `total is None or total == '0.00' or total == '0'`. -/
def totalIsZeroish : Option (List Char) → Bool
  | none => true
  | some s => s = zeroCC || s = zeroC

/-- `float(amount)` where `amount` is the comma-stripped third group; the
group always matches `[+-]?\\d+\\.\\d{2}` after comma removal, so the parse
cannot fail and the default is never used. -/
def lineAmount (a : List Char) : ℚ :=
  (pyFloat (stripCommas a)).getD 0

/-- The repair step: a missing or literal-zero total with a prior running
total becomes `str(running_total + float(amount))` (a number); otherwise the
total stays what the line provided. -/
def repairTotal (rt : Option ℚ) (amount : ℚ) (total0 : Option (List Char)) : TotalV :=
  if totalIsZeroish total0 && rt.isSome then TotalV.numV (rt.getD 0 + amount)
  else
    match total0 with
    | none => TotalV.noneV
    | some s => TotalV.strV s

/-- The `running_total` update: a truthy, non-zero total is parsed directly;
on failure the first embedded number is used; failing that the previous
running total advances by the amount (or is seeded with it). -/
def updateRT (rt : Option ℚ) (amount : ℚ) : TotalV → Option ℚ
  | TotalV.noneV => rt
  | TotalV.numV q => some q
  | TotalV.strV s =>
    if s ≠ [] ∧ s ≠ zeroCC ∧ s ≠ zeroC then
      match pyFloat s with
      | some q => some q
      | none =>
        match firstNum s with
        | some m => some ((pyFloat (stripCommas m)).getD 0)
        | none =>
          match rt with
          | some r => some (r + amount)
          | none => some amount
    else rt

/-- One iteration of the line loop of `parse_store_transactions`: state is
the nullable `running_total` accumulator and the records emitted so far. -/
def parseStep (store : List Char) (st : Option ℚ × List PTxn) (line : List Char) :
    Option ℚ × List PTxn :=
  if (pyStrip line).isEmpty || containsSub preparedByTok line || pyStrip line = ['-'] then st
  else
    match lineMatch line with
    | none => st
    | some (d, x, a, g4) =>
      let amount := lineAmount a
      let rt1 := updateRT st.1 amount (repairTotal st.1 amount (normTotal g4))
      (rt1,
       st.2 ++ [{ Store := store, Date := d, Description := pyStrip x, Amount := amount
                  Running_Total := rt1.getD amount
                  Transaction_Type := classify (pyStrip x) amount }])

/-- `PDFDataExtractor.parse_store_transactions`. -/
def parse_store_transactions (store content : List Char) : List PTxn :=
  ((splitLines content).foldl (parseStep store) (none, [])).2

/-! ## Dates, sorting and orchestration (`PDFDataExtractor.process_single_pdf`)

`process_single_pdf` builds a dataframe restricted to the columns
`Store, Date, Transaction_Type, Description, Amount`, converts `Date` with
`pd.to_datetime(format='%d-%b-%Y', errors='coerce')` (failures become `NaT`,
modelled as `none`), sorts by `(Store, Date)` with missing dates last, and
formats dates back with `strftime('%d-%b-%Y')` (`NaT` becomes a missing
value). -/

/-- ASCII lower-casing used for the case-insensitive `%b` month match. -/
def toLowerCh (c : Char) : Char :=
  if 'A' ≤ c && c ≤ 'Z' then Char.ofNat (c.toNat + 32) else c

/-- Month number of a three-character abbreviation, case-insensitively. -/
def monthNum (m1 m2 m3 : Char) : Option Nat :=
  match toLowerCh m1, toLowerCh m2, toLowerCh m3 with
  | 'j', 'a', 'n' => some 1
  | 'f', 'e', 'b' => some 2
  | 'm', 'a', 'r' => some 3
  | 'a', 'p', 'r' => some 4
  | 'm', 'a', 'y' => some 5
  | 'j', 'u', 'n' => some 6
  | 'j', 'u', 'l' => some 7
  | 'a', 'u', 'g' => some 8
  | 's', 'e', 'p' => some 9
  | 'o', 'c', 't' => some 10
  | 'n', 'o', 'v' => some 11
  | 'd', 'e', 'c' => some 12
  | _, _, _ => none

/-- Gregorian leap year. -/
def isLeap (y : Nat) : Bool :=
  y % 4 = 0 && (y % 100 ≠ 0 || y % 400 = 0)

/-- Days in a month. -/
def daysInMonth (y m : Nat) : Nat :=
  if m = 2 then (if isLeap y then 29 else 28)
  else if m = 4 || m = 6 || m = 9 || m = 11 then 30
  else 31

/-- Lexicographic order on `(year, month, day)`. -/
def tripLe (a b : Nat × Nat × Nat) : Bool :=
  a.1 < b.1 || (a.1 = b.1 && (a.2.1 < b.2.1 || (a.2.1 = b.2.1 && a.2.2 ≤ b.2.2)))

/-- `pd.to_datetime(s, format='%d-%b-%Y', errors='coerce')` as
`(year, month, day)`: one/two day digits (value 1–31, `00` rejected), a
case-insensitive month abbreviation, a four-digit year, the whole string
consumed, the day valid for the month, and the result inside the
`pandas.Timestamp` range (1677-09-22 … 2262-04-11); anything else is `NaT`,
i.e. `none`. -/
def parseDMY (cs : List Char) : Option (Nat × Nat × Nat) :=
  let ds := cs.takeWhile isDigitCh
  if ds.isEmpty || 2 < ds.length then none
  else
    let d := digitsVal ds
    if d < 1 || 31 < d then none
    else
      match cs.dropWhile isDigitCh with
      | '-' :: m1 :: m2 :: m3 :: '-' :: ys =>
        match monthNum m1 m2 m3 with
        | none => none
        | some mo =>
          if ys.length = 4 && ys.all isDigitCh then
            let y := digitsVal ys
            if d ≤ daysInMonth y mo && tripLe (1677, 9, 22) (y, mo, d) &&
                tripLe (y, mo, d) (2262, 4, 11) then
              some (y, mo, d)
            else none
          else none
      | _ => none

/-- Proper-case month abbreviation produced by `strftime('%b')`. -/
def monthAbbrev (m : Nat) : List Char :=
  match m with
  | 1 => "Jan".toList
  | 2 => "Feb".toList
  | 3 => "Mar".toList
  | 4 => "Apr".toList
  | 5 => "May".toList
  | 6 => "Jun".toList
  | 7 => "Jul".toList
  | 8 => "Aug".toList
  | 9 => "Sep".toList
  | 10 => "Oct".toList
  | 11 => "Nov".toList
  | _ => "Dec".toList

/-- Zero-padded two-digit day. -/
def pad2 (n : Nat) : List Char :=
  if n < 10 then '0' :: Nat.toDigits 10 n else Nat.toDigits 10 n

/-- `strftime('%d-%b-%Y')` (years in the Timestamp range always have four
digits). -/
def formatDMY (t : Nat × Nat × Nat) : List Char :=
  pad2 t.2.2 ++ '-' :: monthAbbrev t.2.1 ++ '-' :: Nat.toDigits 10 t.1

/-- Code-point comparison of strings (Python / pandas string order). -/
def strLe : List Char → List Char → Bool
  | [], _ => true
  | _ :: _, [] => false
  | a :: as, b :: bs =>
    if a.toNat = b.toNat then strLe as bs else a.toNat < b.toNat

/-- Code-point equality of strings. -/
def strEqN : List Char → List Char → Bool
  | [], [] => true
  | a :: as, b :: bs => a.toNat = b.toNat && strEqN as bs
  | _, _ => false

/-- Date order with `NaT` last (`sort_values` default `na_position='last'`). -/
def optDateLe : Option (Nat × Nat × Nat) → Option (Nat × Nat × Nat) → Bool
  | _, none => true
  | none, some _ => false
  | some x, some y => tripLe x y

/-- The `sort_values(['Store', 'Date'])` key order on parsed records. -/
def keyLE (a b : PTxn) : Bool :=
  if strEqN a.Store b.Store then optDateLe (parseDMY a.Date) (parseDMY b.Date)
  else strLe a.Store b.Store

/-- Insertion into a sorted list. -/
def insertLe (le : α → α → Bool) (x : α) : List α → List α
  | [] => [x]
  | y :: ys => if le x y then x :: y :: ys else y :: insertLe le x ys

/-- Structural stable sort used to model `sort_values`. -/
def isortBy (le : α → α → Bool) : List α → List α
  | [] => []
  | x :: xs => insertLe le x (isortBy le xs)

/-- The sorted record list of `df.sort_values(['Store', 'Date'])`. -/
def sortRecords (l : List PTxn) : List PTxn :=
  isortBy keyLE l

/-- Concatenation of the per-entity parses, in dictionary insertion order. -/
def allRecordsOf (doc : List (List Char)) : List PTxn :=
  (extract_store_sections doc).foldl
    (fun acc s => acc ++ parse_store_transactions s.1 s.2) []

/-- One row of the final table: the retained columns, in column order, with
the date already converted and re-formatted (`none` is the missing value a
`NaT` leaves after `strftime`). -/
structure OutRow where
  Store : List Char
  Date : Option (List Char)
  Transaction_Type : TType
  Description : List Char
  Amount : ℚ
deriving DecidableEq, Repr

/-- Column selection, date conversion and date re-formatting applied to one
record.  `Running_Total` is not among the selected columns. -/
def finalizeRow (t : PTxn) : OutRow :=
  { Store := t.Store
    Date := (parseDMY t.Date).map formatDMY
    Transaction_Type := t.Transaction_Type
    Description := t.Description
    Amount := t.Amount }

/-- The two per-document failures of `process_single_pdf`. -/
inductive PErr where
  | NoSectionsFound
  | NoTransactionsFound
deriving DecidableEq, Repr

/-- `PDFDataExtractor.process_single_pdf` on the document's page texts. -/
def process_single_pdf (doc : List (List Char)) : Except PErr (List OutRow) :=
  let sections := extract_store_sections doc
  if sections.isEmpty then Except.error PErr.NoSectionsFound
  else
    let all := allRecordsOf doc
    if all.isEmpty then Except.error PErr.NoTransactionsFound
    else Except.ok ((sortRecords all).map finalizeRow)

instance : DecidableEq (Except PErr (List OutRow)) := fun a b =>
  match a, b with
  | Except.ok x, Except.ok y =>
    if h : x = y then isTrue (by rw [h]) else isFalse (by intro hc; cases hc; exact h rfl)
  | Except.error x, Except.error y =>
    if h : x = y then isTrue (by rw [h]) else isFalse (by intro hc; cases hc; exact h rfl)
  | Except.ok _, Except.error _ => isFalse (by intro hc; cases hc)
  | Except.error _, Except.ok _ => isFalse (by intro hc; cases hc)

/-! ## Statements written from the specification's words

These definitions follow the phrasing of the specification (not the source);
they exist to be compared with the source embedding above. -/

/-- Spec §6: the full text of a document is its page texts joined with
newline boundaries. -/
def docText (doc : List (List Char)) : List Char :=
  joinLines doc

/-- Spec §4.1, step 1 boundary test: the header pattern matches and the
substring of `full_text` from the document's start up to the line's position
(a cumulative offset) contains `"REMITTANCE"`. -/
def specBoundary (ftext : List Char) (pos : Nat) (line : List Char) : Bool :=
  (headerCapture line).isSome && containsSub remittanceTok (ftext.take pos)

/-- Spec §4.1 line step, carrying the cumulative offset of the current line
within `full_text`. -/
def specSegLine (ftext : List Char) (st : Nat × SegState) (line : List Char) :
    Nat × SegState :=
  let st1 :=
    match headerCapture line with
    | some g2 =>
      if containsSub remittanceTok (ftext.take st.1) then applyHeader st.2 g2
      else st.2
    | none => st.2
  (st.1 + line.length + 1, segAfterHeader st1 line)

/-- The segmenter as the specification words it: one scan of the lines of
`full_text`, with the look-back-to-document-start `"REMITTANCE"` test. -/
def specSeg (doc : List (List Char)) : List (List Char × List Char) :=
  segFinish ((splitLines (docText doc)).foldl (specSegLine (docText doc)) (0, ⟨[], none, [], false⟩)).2

/-- The amended boundary wording of claim C1: the test is page-local, against
the current page's text up to the first occurrence of the line's text. -/
def specSegPageLine (text : List Char) (st : SegState) (line : List Char) : SegState :=
  segAfterHeader
    (if segBoundary text line then applyHeader st ((headerCapture line).getD []) else st)
    line

/-- The segmenter under the amended claim-C1 wording. -/
def specSegPage (doc : List (List Char)) : List (List Char × List Char) :=
  segFinish (doc.foldl (fun st text => (splitLines text).foldl (specSegPageLine text) st)
    ⟨[], none, [], false⟩)

/-- Whole-string test of `\d{1,2}-\w{3}-\d{4}` (the shared date field of the
pattern tiers). -/
def dateShapeB (D : List Char) : Bool :=
  match takeDate D with
  | some (_, rest) => rest.isEmpty
  | none => false

/-- A bare fractional remainder beginning with `.`: the first tier-A total
alternative `\.\d{2}`. -/
def dotFrac2 (t : List Char) : Bool :=
  match t with
  | '.' :: a :: b :: rest => isDigitCh a && isDigitCh b && rest.isEmpty
  | _ => false

/-- Spec §4.2 tier-A total wording: a bare fractional remainder beginning
with `.`, or a fully-formed signed decimal with thousands separators. -/
def g4SpecOrig (t : List Char) : Bool :=
  dotFrac2 t || signedSepDec t

/-- A line "of the form date, description, amount, total" with the shared
field shapes of the tiers and a given whole-string test on the total field:
the declarative decomposition the backtracking matcher is compared against. -/
def TierShape (check : List Char → Bool) (line : List Char) : Prop :=
  ∃ dd w1 x w2 aa w3 t,
    line = dd ++ (w1 ++ (x ++ (w2 ++ (aa ++ (w3 ++ t))))) ∧
    dateShapeB dd = true ∧
    w1 ≠ [] ∧ w1.all isWS = true ∧
    w2 ≠ [] ∧ w2.all isWS = true ∧
    w3 ≠ [] ∧ w3.all isWS = true ∧
    signedSepDec aa = true ∧
    check t = true

/-! ## Acceptance domain of Python `float` (reachable via the tier-3 total) -/

/-- Every underscore in the remaining characters sits between two digits;
`prev` is the character seen just before them. -/
def underscoresOKAux : Char → List Char → Bool
  | _, [] => true
  | prev, c :: rest =>
    if c = '_' then
      (isDigitCh prev &&
        match rest with
        | n :: _ => isDigitCh n
        | [] => false) &&
        underscoresOKAux c rest
    else underscoresOKAux c rest

/-- CPython's underscore rule for numeric strings: every `_` is both preceded
and followed by a digit. -/
def underscoresOK (l : List Char) : Bool :=
  underscoresOKAux ' ' l

/-- The `inf` / `infinity` / `nan` spellings `float` accepts after the
optional sign, case-insensitively. -/
def infNanBody (body : List Char) : Bool :=
  let l := body.map toLowerCh
  l = "inf".toList || l = "infinity".toList || l = "nan".toList

/-- Whether Python `float(s)` succeeds: after the whitespace strip and the
optional sign, an underscored body must satisfy the underscore rule and is
read with its underscores removed; the body is then a plain finite literal of
`pyFloatBody`'s grammar or an `inf`/`nan` spelling. -/
def pyFloatOK (cs : List Char) : Bool :=
  match pyStrip cs with
  | [] => false
  | c :: rest =>
    let body := if c = '-' || c = '+' then rest else c :: rest
    if body.any (fun x => x = '_') then
      underscoresOK body &&
        (infNanBody (body.filter (fun x => !(x = '_'))) ||
          (pyFloatBody false (body.filter (fun x => !(x = '_')))).isSome)
    else
      infNanBody body || (pyFloatBody false body).isSome

/-! ## Concrete documents and lines used by the claim theorems -/

/-- Two-page document: the marker on page 1, the header and table on page 2. -/
def exC1doc : List (List Char) :=
  ["REMITTANCE".toList,
   "My Shop t/a - Acme\nDate Amount Total\n01-Jan-2024 Foo 1.00 1.00".toList]

/-- Single-page document whose one transaction line has total `5.00`. -/
def exC2docA : List (List Char) :=
  ["REMITTANCE\nA t/a - S\nDate Amount Total\n01-Jan-2024 Foo 2.00 5.00".toList]

/-- The same document with total `7.00` instead. -/
def exC2docB : List (List Char) :=
  ["REMITTANCE\nA t/a - S\nDate Amount Total\n01-Jan-2024 Foo 2.00 7.00".toList]

/-- The running-total-repair body of claim C3. -/
def exC3content : List Char :=
  "01-Jan-2024 Foo 100.00 100.00\n02-Jan-2024 Bar 50.00 0.00".toList

/-- A line whose total field is a signed decimal with a thousands separator. -/
def exC7line : List Char :=
  "01-Jan-2024 Foo 100.00 1,234.56".toList

/-- Single-page document whose one transaction line has an unparseable date. -/
def exC8doc : List (List Char) :=
  ["REMITTANCE\nA t/a - S\nDate Amount Total\n31-Xxx-2024 Foo 1.00 1.00".toList]

/-- Two entities, mixed dates, one unparseable date. -/
def exC9doc : List (List Char) :=
  [("REMITTANCE\nX t/a - Beta\nDate Amount Total\n06-Jan-2024 B1 1.00 1.00\n" ++
    "REMITTANCE\nY t/a - Alpha\nDate Amount Total\n05-Feb-2024 A1 1.00 1.00\n" ++
    "04-Jan-2024 A2 2.00 3.00\n31-Xxx-2024 A3 3.00 6.00").toList]

/-- A transaction table split across two pages, the column-header line
repeated on the second page. -/
def exC10doc : List (List Char) :=
  ["REMITTANCE\nA t/a - S\nDate Amount Total\n01-Jan-2024 P1 1.00 1.00\nTOTAL AS PER STATEMENT x".toList,
   "Date Amount Total\n02-Jan-2024 P2 2.00 3.00".toList]

/-! ## Helper lemmas -/

theorem firstSome_isSome_iff (f : α → Option β) (l : List α) :
    (firstSome f l).isSome ↔ ∃ a ∈ l, (f a).isSome := by
  induction l with
  | nil => simp [firstSome]
  | cons a as ih =>
    simp only [firstSome]
    cases h : f a with
    | some b => simp [h]
    | none =>
      simp only [ih]
      constructor
      · rintro ⟨x, hx, hsome⟩; exact ⟨x, List.mem_cons_of_mem _ hx, hsome⟩
      · rintro ⟨x, hx, hsome⟩
        rcases List.mem_cons.1 hx with rfl | hx
        · rw [h] at hsome; simp at hsome
        · exact ⟨x, hx, hsome⟩

theorem mem_countdown {n k : Nat} : k ∈ countdown n ↔ 1 ≤ k ∧ k ≤ n := by
  induction n with
  | zero => simp [countdown]; omega
  | succ m ih =>
    simp only [countdown, List.mem_cons, ih]
    omega

theorem insertLe_perm (le : α → α → Bool) (x : α) (l : List α) :
    List.Perm (insertLe le x l) (x :: l) := by
  induction l with
  | nil => exact List.Perm.refl _
  | cons y ys ih =>
    simp only [insertLe]
    split
    · exact List.Perm.refl _
    · exact (List.Perm.cons y ih).trans (List.Perm.swap x y ys)

theorem isortBy_perm (le : α → α → Bool) (l : List α) : List.Perm (isortBy le l) l := by
  induction l with
  | nil => exact List.Perm.refl _
  | cons x xs ih => exact (insertLe_perm le x (isortBy le xs)).trans (List.Perm.cons x ih)

theorem pairwise_insertLe (le : α → α → Bool)
    (htr : ∀ a b c, le a b = true → le b c = true → le a c = true)
    (hto : ∀ a b, le a b = true ∨ le b a = true)
    (x : α) (l : List α) (h : l.Pairwise (fun a b => le a b = true)) :
    (insertLe le x l).Pairwise (fun a b => le a b = true) := by
  induction l with
  | nil => simp [insertLe]
  | cons y ys ih =>
    rcases List.pairwise_cons.1 h with ⟨hy, hys⟩
    simp only [insertLe]
    split
    · rename_i hxy
      refine List.pairwise_cons.2 ⟨?_, h⟩
      intro z hz
      rcases List.mem_cons.1 hz with rfl | hz
      · exact hxy
      · exact htr x y z hxy (hy z hz)
    · rename_i hxy
      have hyx : le y x = true := by
        rcases hto x y with h1 | h1
        · exact absurd h1 hxy
        · exact h1
      refine List.pairwise_cons.2 ⟨?_, ih hys⟩
      intro z hz
      have : z = x ∨ z ∈ ys := by
        have := (insertLe_perm le x ys).mem_iff.1 hz
        simpa using this
      rcases this with rfl | hz
      · exact hyx
      · exact hy z hz

theorem pairwise_isortBy (le : α → α → Bool)
    (htr : ∀ a b c, le a b = true → le b c = true → le a c = true)
    (hto : ∀ a b, le a b = true ∨ le b a = true)
    (l : List α) : (isortBy le l).Pairwise (fun a b => le a b = true) := by
  induction l with
  | nil => simp [isortBy]
  | cons x xs ih => exact pairwise_insertLe le htr hto x (isortBy le xs) ih

theorem strLe_total (a b : List Char) : strLe a b = true ∨ strLe b a = true := by
  induction a generalizing b with
  | nil => left; rfl
  | cons c cs ih =>
    cases b with
    | nil => right; rfl
    | cons d ds =>
      simp only [strLe]
      by_cases h : c.toNat = d.toNat
      · rw [if_pos h, if_pos h.symm]
        exact ih ds
      · have h' : ¬ d.toNat = c.toNat := fun hh => h hh.symm
        simp only [if_neg h, if_neg h', decide_eq_true_eq]
        omega

theorem strLe_trans {a b c : List Char} (h1 : strLe a b = true) (h2 : strLe b c = true) :
    strLe a c = true := by
  induction a generalizing b c with
  | nil => rfl
  | cons x xs ih =>
    cases b with
    | nil => simp [strLe] at h1
    | cons y ys =>
      cases c with
      | nil => simp [strLe] at h2
      | cons z zs =>
        simp only [strLe] at h1 h2 ⊢
        by_cases hxy : x.toNat = y.toNat <;> by_cases hyz : y.toNat = z.toNat
        · rw [if_pos hxy] at h1; rw [if_pos hyz] at h2
          rw [if_pos (hxy.trans hyz)]
          exact ih h1 h2
        · rw [if_pos hxy] at h1; rw [if_neg hyz] at h2
          have : ¬ x.toNat = z.toNat := by
            simp only [decide_eq_true_eq] at h2; omega
          rw [if_neg this]
          simp only [decide_eq_true_eq] at h2 ⊢; omega
        · rw [if_neg hxy] at h1; rw [if_pos hyz] at h2
          have : ¬ x.toNat = z.toNat := by
            simp only [decide_eq_true_eq] at h1; omega
          rw [if_neg this]
          simp only [decide_eq_true_eq] at h1 ⊢; omega
        · rw [if_neg hxy] at h1; rw [if_neg hyz] at h2
          simp only [decide_eq_true_eq] at h1 h2
          have : ¬ x.toNat = z.toNat := by omega
          rw [if_neg this]
          simp only [decide_eq_true_eq]; omega

theorem strLe_antisymm {a b : List Char} (h1 : strLe a b = true) (h2 : strLe b a = true) :
    strEqN a b = true := by
  induction a generalizing b with
  | nil =>
    cases b with
    | nil => rfl
    | cons d ds => simp [strLe] at h2
  | cons c cs ih =>
    cases b with
    | nil => simp [strLe] at h1
    | cons d ds =>
      simp only [strLe] at h1 h2
      simp only [strEqN, Bool.and_eq_true, decide_eq_true_eq]
      by_cases h : c.toNat = d.toNat
      · rw [if_pos h] at h1
        rw [if_pos h.symm] at h2
        exact ⟨h, ih h1 h2⟩
      · have h' : ¬ d.toNat = c.toNat := fun hh => h hh.symm
        rw [if_neg h] at h1; rw [if_neg h'] at h2
        simp only [decide_eq_true_eq] at h1 h2
        omega

theorem strEqN_symm (a b : List Char) : strEqN a b = strEqN b a := by
  induction a generalizing b with
  | nil => cases b <;> rfl
  | cons c cs ih =>
    cases b with
    | nil => rfl
    | cons d ds =>
      simp only [strEqN, ih]
      by_cases h : c.toNat = d.toNat
      · rw [decide_eq_true h, decide_eq_true h.symm]
      · have h' : ¬ d.toNat = c.toNat := fun hh => h hh.symm
        rw [decide_eq_false h, decide_eq_false h']

theorem strEqN_trans {a b c : List Char} (h1 : strEqN a b = true) (h2 : strEqN b c = true) :
    strEqN a c = true := by
  induction a generalizing b c with
  | nil =>
    cases b with
    | nil => exact h2
    | cons d ds => simp [strEqN] at h1
  | cons x xs ih =>
    cases b with
    | nil => simp [strEqN] at h1
    | cons y ys =>
      cases c with
      | nil => simp [strEqN] at h2
      | cons z zs =>
        simp only [strEqN, Bool.and_eq_true, decide_eq_true_eq] at h1 h2 ⊢
        exact ⟨h1.1.trans h2.1, ih h1.2 h2.2⟩

theorem strLe_congr_left {a b c : List Char} (h : strEqN a b = true) :
    strLe a c = strLe b c := by
  induction a generalizing b c with
  | nil =>
    cases b with
    | nil => rfl
    | cons d ds => simp [strEqN] at h
  | cons x xs ih =>
    cases b with
    | nil => simp [strEqN] at h
    | cons y ys =>
      simp only [strEqN, Bool.and_eq_true, decide_eq_true_eq] at h
      cases c with
      | nil => rfl
      | cons z zs =>
        simp only [strLe, h.1, ih h.2]

theorem strLe_congr_right {a b c : List Char} (h : strEqN b c = true) :
    strLe a b = strLe a c := by
  induction a generalizing b c with
  | nil => rfl
  | cons x xs ih =>
    cases b with
    | nil =>
      cases c with
      | nil => rfl
      | cons z zs => simp [strEqN] at h
    | cons y ys =>
      cases c with
      | nil => simp [strEqN] at h
      | cons z zs =>
        simp only [strEqN, Bool.and_eq_true, decide_eq_true_eq] at h
        simp only [strLe, h.1, ih h.2]

theorem tripLe_total (a b : Nat × Nat × Nat) : tripLe a b = true ∨ tripLe b a = true := by
  simp only [tripLe, Bool.or_eq_true, Bool.and_eq_true, decide_eq_true_eq]
  omega

theorem tripLe_trans {a b c : Nat × Nat × Nat} (h1 : tripLe a b = true)
    (h2 : tripLe b c = true) : tripLe a c = true := by
  simp only [tripLe, Bool.or_eq_true, Bool.and_eq_true, decide_eq_true_eq] at h1 h2 ⊢
  omega

theorem optDateLe_total (a b : Option (Nat × Nat × Nat)) :
    optDateLe a b = true ∨ optDateLe b a = true := by
  cases a <;> cases b <;> simp [optDateLe]
  exact tripLe_total _ _

theorem optDateLe_trans {a b c : Option (Nat × Nat × Nat)} (h1 : optDateLe a b = true)
    (h2 : optDateLe b c = true) : optDateLe a c = true := by
  cases a <;> cases b <;> cases c <;> simp_all [optDateLe]
  exact tripLe_trans h1 h2

theorem keyLE_total (a b : PTxn) : keyLE a b = true ∨ keyLE b a = true := by
  simp only [keyLE]
  by_cases h : strEqN a.Store b.Store = true
  · rw [if_pos h, if_pos (by rw [strEqN_symm]; exact h)]
    exact optDateLe_total _ _
  · rw [if_neg h, if_neg (by rw [strEqN_symm]; exact h)]
    exact strLe_total _ _

theorem keyLE_trans {a b c : PTxn} (h1 : keyLE a b = true) (h2 : keyLE b c = true) :
    keyLE a c = true := by
  simp only [keyLE] at h1 h2 ⊢
  by_cases hab : strEqN a.Store b.Store = true <;>
    by_cases hbc : strEqN b.Store c.Store = true
  · rw [if_pos hab] at h1; rw [if_pos hbc] at h2
    rw [if_pos (strEqN_trans hab hbc)]
    exact optDateLe_trans h1 h2
  · rw [if_pos hab] at h1; rw [if_neg hbc] at h2
    have hac : ¬ strEqN a.Store c.Store = true := by
      intro hac
      exact hbc (strEqN_trans (by rw [strEqN_symm]; exact hab) hac)
    rw [if_neg hac, strLe_congr_left hab]
    exact h2
  · rw [if_neg hab] at h1; rw [if_pos hbc] at h2
    have hac : ¬ strEqN a.Store c.Store = true := by
      intro hac
      exact hab (strEqN_trans hac (by rw [strEqN_symm]; exact hbc))
    rw [if_neg hac, ← strLe_congr_right hbc]
    exact h1
  · rw [if_neg hab] at h1; rw [if_neg hbc] at h2
    by_cases hac : strEqN a.Store c.Store = true
    · exfalso
      have : strLe b.Store a.Store = true := by
        rw [strLe_congr_right hac]; exact h2
      exact hab (strLe_antisymm h1 this)
    · rw [if_neg hac]
      exact strLe_trans h1 h2

/-! ## Claim theorems -/

/-- C5: for every matched transaction line, classification is: `Rebate` when
the description contains `"TRG - CA SALES - MONDELEZ"`, regardless of any
other rule; otherwise `Reversal` when it contains `"Revesal"` or
`"Reversal"`; otherwise `Credit` for a negative amount; otherwise `Invoice`.
In particular a description containing both the Mondelez token and
`"Reversal"` classifies as `Rebate`. -/
theorem claimC5_classification :
    (∀ (description : List Char) (amount : ℚ),
      classify description amount =
        (if containsSub mondelezTok description then TType.Rebate
         else if containsSub revesalTok description || containsSub reversalTok description then
           TType.Reversal
         else if amount < 0 then TType.Credit
         else TType.Invoice)) ∧
    (∀ (description : List Char) (amount : ℚ),
      containsSub mondelezTok description = true →
      containsSub reversalTok description = true →
      classify description amount = TType.Rebate) := by
  constructor
  · intro description amount
    rfl
  · intro description amount hm _
    simp only [classify, hm, if_true]

/-- Witness for C5: the rebate override beats the reversal keyword on a
concrete description. -/
theorem claimC5_classification_witness :
    containsSub mondelezTok ("TRG - CA SALES - MONDELEZ Reversal".toList) = true ∧
    containsSub reversalTok ("TRG - CA SALES - MONDELEZ Reversal".toList) = true ∧
    classify ("TRG - CA SALES - MONDELEZ Reversal".toList) (-5) = TType.Rebate :=
  ⟨by decide, by decide,
    claimC5_classification.2 ("TRG - CA SALES - MONDELEZ Reversal".toList) (-5)
      (by decide) (by decide)⟩

/-- C6: processing fails with `NoSectionsFound` exactly when segmentation
yields zero entities, fails with `NoTransactionsFound` exactly when entities
were found but zero records were extracted, and otherwise succeeds with a
non-empty table containing one row per extracted record. -/
theorem claimC6_failures (doc : List (List Char)) :
    (process_single_pdf doc = Except.error PErr.NoSectionsFound ↔
      extract_store_sections doc = []) ∧
    (process_single_pdf doc = Except.error PErr.NoTransactionsFound ↔
      extract_store_sections doc ≠ [] ∧ allRecordsOf doc = []) ∧
    (∀ rows, process_single_pdf doc = Except.ok rows →
      rows ≠ [] ∧ rows.length = (allRecordsOf doc).length) ∧
    (allRecordsOf doc ≠ [] → ∃ rows, process_single_pdf doc = Except.ok rows) := by
  have hsecrec : extract_store_sections doc = [] → allRecordsOf doc = [] := by
    intro h
    simp [allRecordsOf, h]
  simp only [process_single_pdf]
  by_cases hs : extract_store_sections doc = []
  · rw [if_pos (List.isEmpty_iff.2 hs)]
    refine ⟨?_, ?_, ?_, ?_⟩
    · simp [hs]
    · constructor
      · intro h; cases h
      · rintro ⟨hne, _⟩; exact absurd hs hne
    · intro rows h; cases h
    · intro h; exact absurd (hsecrec hs) h
  · rw [if_neg (fun hc => hs (List.isEmpty_iff.1 hc))]
    by_cases ha : allRecordsOf doc = []
    · rw [if_pos (List.isEmpty_iff.2 ha)]
      refine ⟨?_, ?_, ?_, ?_⟩
      · constructor
        · intro h; cases h
        · intro h; exact absurd h hs
      · simp [hs, ha]
      · intro rows h; cases h
      · intro h; exact absurd ha h
    · rw [if_neg (fun hc => ha (List.isEmpty_iff.1 hc))]
      refine ⟨?_, ?_, ?_, ?_⟩
      · constructor
        · intro h; cases h
        · intro h; exact absurd h hs
      · constructor
        · intro h; cases h
        · rintro ⟨_, h⟩; exact absurd h ha
      · intro rows h
        cases h
        have hlen : ((sortRecords (allRecordsOf doc)).map finalizeRow).length =
            (allRecordsOf doc).length := by
          rw [List.length_map]
          exact (isortBy_perm keyLE (allRecordsOf doc)).length_eq
        constructor
        · intro hnil
          rw [hnil] at hlen
          exact ha (List.length_eq_zero.1 hlen.symm)
        · exact hlen
      · intro _
        exact ⟨_, rfl⟩

/-- Witness for C6: a document with no pages has no sections and fails with
`NoSectionsFound`; a concrete one-transaction document succeeds with one
row. -/
theorem claimC6_failures_witness :
    process_single_pdf [] = Except.error PErr.NoSectionsFound ∧
    (allRecordsOf exC2docA ≠ [] ∧ ∃ rows, process_single_pdf exC2docA = Except.ok rows) :=
  ⟨(claimC6_failures []).1.mpr (by decide),
   ⟨by decide, (claimC6_failures exC2docA).2.2.2 (by decide)⟩⟩

/-- Shape of one parser iteration on a non-skipped, matched line: the new
running total is `updateRT` of the repaired total, and exactly one record is
appended, carrying that value (or the amount when it is still null). -/
theorem parseStep_matched (store : List Char) (st : Option ℚ × List PTxn)
    (line d x a g4 : List Char)
    (h1 : (pyStrip line).isEmpty = false) (h2 : containsSub preparedByTok line = false)
    (h3 : pyStrip line ≠ ['-']) (hm : lineMatch line = some (d, x, a, g4)) :
    parseStep store st line =
      (updateRT st.1 (lineAmount a) (repairTotal st.1 (lineAmount a) (normTotal g4)),
       st.2 ++ [{ Store := store, Date := d, Description := pyStrip x, Amount := lineAmount a
                  Running_Total :=
                    (updateRT st.1 (lineAmount a)
                      (repairTotal st.1 (lineAmount a) (normTotal g4))).getD (lineAmount a)
                  Transaction_Type := classify (pyStrip x) (lineAmount a) }]) := by
  simp only [parseStep, h1, h2, decide_eq_false h3, Bool.or_self, Bool.or_false,
    Bool.false_or, if_neg (Bool.false_ne_true), hm]

/-- C3: for a matched line whose (normalised) total field is absent or a
literal zero, with a prior running total `rt` present, the emitted record's
`Running_Total` is `rt + amount` and the accumulator advances to it; and on
the two concrete lines of the claim the second record resolves to `150.00`. -/
theorem claimC3_repair :
    (∀ (store : List Char) (rt : ℚ) (acc : List PTxn) (line d x a g4 : List Char),
      (pyStrip line).isEmpty = false →
      containsSub preparedByTok line = false →
      pyStrip line ≠ ['-'] →
      lineMatch line = some (d, x, a, g4) →
      totalIsZeroish (normTotal g4) = true →
      parseStep store (some rt, acc) line =
        (some (rt + lineAmount a),
         acc ++ [{ Store := store, Date := d, Description := pyStrip x,
                   Amount := lineAmount a,
                   Running_Total := rt + lineAmount a,
                   Transaction_Type := classify (pyStrip x) (lineAmount a) }])) ∧
    (parse_store_transactions ("E".toList) exC3content).map PTxn.Running_Total = [100, 150] := by
  constructor
  · intro store rt acc line d x a g4 h1 h2 h3 hm hz
    rw [parseStep_matched store (some rt, acc) line d x a g4 h1 h2 h3 hm]
    simp [repairTotal, updateRT, hz]
  · decide!

/-- Witness for C3: the repair step applied to the concrete second line of
the claim with prior running total `100`. -/
theorem claimC3_repair_witness :
    (pyStrip ("02-Jan-2024 Bar 50.00 0.00".toList)).isEmpty = false ∧
    containsSub preparedByTok ("02-Jan-2024 Bar 50.00 0.00".toList) = false ∧
    pyStrip ("02-Jan-2024 Bar 50.00 0.00".toList) ≠ ['-'] ∧
    lineMatch ("02-Jan-2024 Bar 50.00 0.00".toList) =
      some ("02-Jan-2024".toList, "Bar".toList, "50.00".toList, "0.00".toList) ∧
    totalIsZeroish (normTotal ("0.00".toList)) = true ∧
    parseStep ("E".toList) (some 100, []) ("02-Jan-2024 Bar 50.00 0.00".toList) =
      (some (100 + lineAmount ("50.00".toList)),
       [] ++ [{ Store := "E".toList, Date := "02-Jan-2024".toList,
                Description := pyStrip ("Bar".toList),
                Amount := lineAmount ("50.00".toList),
                Running_Total := 100 + lineAmount ("50.00".toList),
                Transaction_Type := classify (pyStrip ("Bar".toList))
                  (lineAmount ("50.00".toList)) }]) :=
  ⟨by decide, by decide, by decide, by decide, by decide,
    claimC3_repair.1 ("E".toList) 100 [] ("02-Jan-2024 Bar 50.00 0.00".toList)
      ("02-Jan-2024".toList) ("Bar".toList) ("50.00".toList) ("0.00".toList)
      (by decide) (by decide) (by decide) (by decide) (by decide)⟩

theorem parseExp_no_underscore {r : List Char} {e : Int} (h : parseExp r = some e) :
    '_' ∉ r := by
  intro hmem
  cases r with
  | nil => simp at hmem
  | cons c rest =>
    simp only [parseExp] at h
    split at h
    case isTrue hc =>
      cases rest with
      | nil => cases h
      | cons c2 r2 =>
        simp only at h
        have hcE : c = 'e' ∨ c = 'E' := by simpa using hc
        simp only [List.mem_cons] at hmem
        split at h
        case isTrue hsgn =>
          split at h
          case isTrue hds =>
            rw [Bool.and_eq_true, List.all_eq_true] at hds
            obtain ⟨-, hall⟩ := hds
            rcases hmem with h1 | h1 | h1
            · rcases hcE with rfl | rfl <;> exact absurd h1 (by decide)
            · rcases (by simpa using hsgn : c2 = '-' ∨ c2 = '+') with rfl | rfl <;>
                exact absurd h1 (by decide)
            · exact absurd (hall '_' h1) (by decide)
          case isFalse => cases h
        case isFalse hsgn =>
          split at h
          case isTrue hds =>
            rw [Bool.and_eq_true, List.all_eq_true] at hds
            obtain ⟨-, hall⟩ := hds
            rcases hmem with h1 | h1 | h1
            · rcases hcE with rfl | rfl <;> exact absurd h1 (by decide)
            · exact absurd (hall c2 (List.mem_cons_self c2 r2)) (by rw [← h1]; decide)
            · exact absurd (hall '_' (List.mem_cons_of_mem _ h1)) (by decide)
          case isFalse => cases h
    case isFalse => cases h

theorem pyFloatBody_inv {neg : Bool} {body : List Char} {v : ℚ}
    (h : pyFloatBody neg body = some v) :
    '_' ∉ body ∧ (pyFloatBody false body).isSome = true := by
  simp only [pyFloatBody] at h ⊢
  split at h
  case isTrue => cases h
  case isFalse hne =>
    split at h
    case h_1 => cases h
    case h_2 e hpe =>
      refine ⟨?_, by rw [if_neg hne]; rfl⟩
      intro hmem
      rw [← List.takeWhile_append_dropWhile (p := isDigitCh) (l := body),
        List.mem_append] at hmem
      rcases hmem with hmem | hmem
      · exact absurd (List.mem_takeWhile_imp hmem) (by decide)
      · rcases hdw : body.dropWhile isDigitCh with _ | ⟨c1, t⟩
        · rw [hdw] at hmem
          simp at hmem
        · rw [hdw] at hmem hpe
          by_cases hc1 : c1 = '.'
          · subst hc1
            simp only [List.mem_cons] at hmem
            simp at hpe
            rcases hmem with h1 | h1
            · exact absurd h1 (by decide)
            · rw [← List.takeWhile_append_dropWhile (p := isDigitCh) (l := t),
                List.mem_append] at h1
              rcases h1 with h1 | h1
              · exact absurd (List.mem_takeWhile_imp h1) (by decide)
              · exact parseExp_no_underscore hpe h1
          · split at hpe
            next t2 heq =>
              injection heq with hh _
              exact hc1 hh
            next =>
              exact parseExp_no_underscore hpe hmem

theorem pyFloatOK_of_some {cs : List Char} {v : ℚ} (h : pyFloat cs = some v) :
    pyFloatOK cs = true := by
  rcases hps : pyStrip cs with _ | ⟨c, rest⟩
  · simp only [pyFloat, hps] at h
    cases h
  · simp only [pyFloat, hps] at h
    by_cases hm : c = '-'
    · subst hm
      rw [if_pos rfl] at h
      obtain ⟨hnu, hsome⟩ := pyFloatBody_inv h
      have hany : rest.any (fun x => x = '_') = false := by
        cases hq : rest.any (fun x => x = '_') with
        | false => rfl
        | true =>
          obtain ⟨x, hx, hx2⟩ := List.any_eq_true.1 hq
          rw [decide_eq_true_eq] at hx2
          exact absurd (hx2 ▸ hx) hnu
      simp [pyFloatOK, hps, hany, hsome]
    · by_cases hp : c = '+'
      · subst hp
        rw [if_neg (by decide), if_pos rfl] at h
        obtain ⟨hnu, hsome⟩ := pyFloatBody_inv h
        have hany : rest.any (fun x => x = '_') = false := by
          cases hq : rest.any (fun x => x = '_') with
          | false => rfl
          | true =>
            obtain ⟨x, hx, hx2⟩ := List.any_eq_true.1 hq
            rw [decide_eq_true_eq] at hx2
            exact absurd (hx2 ▸ hx) hnu
        simp [pyFloatOK, hps, hany, hsome]
      · rw [if_neg hm, if_neg hp] at h
        obtain ⟨hnu, hsome⟩ := pyFloatBody_inv h
        have hany : (c :: rest).any (fun x => x = '_') = false := by
          cases hq : (c :: rest).any (fun x => x = '_') with
          | false => rfl
          | true =>
            obtain ⟨x, hx, hx2⟩ := List.any_eq_true.1 hq
            rw [decide_eq_true_eq] at hx2
            exact absurd (hx2 ▸ hx) hnu
        simp [pyFloatOK, hps, hany, hsome, hm, hp]

theorem pyFloat_none_of_notOK {cs : List Char} (h : pyFloatOK cs = false) :
    pyFloat cs = none := by
  cases hp : pyFloat cs with
  | none => rfl
  | some v => cases (pyFloatOK_of_some hp).symm.trans h

/-- Counterexample for C2: two documents whose single transaction lines differ
only in the total column (hence in the parser's `Running_Total`) produce
identical output tables — the selected columns
`Store, Date, Transaction_Type, Description, Amount` do not carry a
running-total value. -/
theorem claimC2_counterexample :
    process_single_pdf exC2docA = process_single_pdf exC2docB ∧
    (allRecordsOf exC2docA).map PTxn.Running_Total = [5] ∧
    (allRecordsOf exC2docB).map PTxn.Running_Total = [7] := by
  refine ⟨?_, ?_, ?_⟩ <;> decide!

/-- C2 (amended): every record built by the transaction parser carries a
running-total value, and when the captured total is absent, a literal zero,
or non-empty text that Python's `float` rejects and that embeds no number,
that value is the previous running total plus the amount, or the amount
itself for the first transaction of the entity.  (The orchestration's column
selection then omits this value from the output table — see the
counterexample.) -/
theorem claimC2_running_total :
    ∀ (store : List Char) (rt : Option ℚ) (acc : List PTxn) (line d x a g4 : List Char),
      (pyStrip line).isEmpty = false →
      containsSub preparedByTok line = false →
      pyStrip line ≠ ['-'] →
      lineMatch line = some (d, x, a, g4) →
      (totalIsZeroish (normTotal g4) = true ∨
        (∃ s, normTotal g4 = some s ∧ totalIsZeroish (normTotal g4) = false ∧ s ≠ [] ∧
          pyFloatOK s = false ∧ firstNum s = none)) →
      ∃ tr, (parseStep store (rt, acc) line).2 = acc ++ [tr] ∧
        tr.Running_Total =
          (match rt with
           | some r => r + lineAmount a
           | none => lineAmount a) := by
  intro store rt acc line d x a g4 h1 h2 h3 hm hcase
  rw [parseStep_matched store (rt, acc) line d x a g4 h1 h2 h3 hm]
  refine ⟨_, rfl, ?_⟩
  rcases hcase with hz | ⟨s, hns, hnz, hne, hpf, hfn⟩
  · cases rt with
    | some r => simp [repairTotal, updateRT, hz]
    | none =>
      cases hnt : normTotal g4 with
      | none => simp [repairTotal, updateRT, hnt]
      | some s =>
        have hs : s = zeroCC ∨ s = zeroC := by
          rw [hnt] at hz
          simp only [totalIsZeroish, Bool.or_eq_true, decide_eq_true_eq] at hz
          exact hz
        rcases hs with rfl | rfl <;> simp [repairTotal, updateRT, hnt, totalIsZeroish]
  · have hpfn : pyFloat s = none := pyFloat_none_of_notOK hpf
    have hzc : ¬ s = zeroCC := by
      intro h
      rw [hns, h] at hnz
      cases (by decide : totalIsZeroish (some zeroCC) = true).symm.trans hnz
    have hz0 : ¬ s = zeroC := by
      intro h
      rw [hns, h] at hnz
      cases (by decide : totalIsZeroish (some zeroC) = true).symm.trans hnz
    rw [hns] at hnz
    simp only [repairTotal, hns, hnz, Bool.false_and, Bool.false_eq_true, if_false,
      updateRT, if_pos (And.intro hne (And.intro hzc hz0)), hpfn, hfn]
    cases rt with
    | some r => simp
    | none => simp

/-- Witness for C2 (amended): a first transaction whose total field is the
unparseable text `x` stores its amount as the running total. -/
theorem claimC2_running_total_witness :
    lineMatch ("01-Jan-2024 Foo 2.00 x".toList) =
      some ("01-Jan-2024".toList, "Foo".toList, "2.00".toList, "x".toList) ∧
    (∃ tr, (parseStep ("S".toList) (none, []) ("01-Jan-2024 Foo 2.00 x".toList)).2 = [] ++ [tr] ∧
      tr.Running_Total =
        (match (none : Option ℚ) with
         | some r => r + lineAmount ("2.00".toList)
         | none => lineAmount ("2.00".toList))) :=
  ⟨by decide,
    claimC2_running_total ("S".toList) none [] ("01-Jan-2024 Foo 2.00 x".toList)
      ("01-Jan-2024".toList) ("Foo".toList) ("2.00".toList) ("x".toList)
      (by decide) (by decide) (by decide) (by decide)
      (Or.inr ⟨"x".toList, by decide, by decide, by decide, by decide, by decide⟩)⟩

/-- Counterexample for C8: a document whose one matched line has the
unparseable date `31-Xxx-2024` succeeds, and the emitted row's date field is
the missing value `none` (NaT after `strftime`), not the raw date string —
the raw string survives only in the parser's intermediate record. -/
theorem claimC8_counterexample :
    process_single_pdf exC8doc =
      Except.ok [{ Store := "S".toList, Date := none, Transaction_Type := TType.Invoice,
                   Description := "Foo".toList, Amount := 1 }] ∧
    (allRecordsOf exC8doc).map PTxn.Date = ["31-Xxx-2024".toList] := by
  constructor <;> decide!

/-- C8 (amended): a matched line whose date does not parse still emits
exactly one record, no failure is raised, and the parser keeps the raw date
string; downstream, a successful document keeps one output row per record
(nothing is discarded), with each row's date `(parseDMY …).map formatDMY` —
`none`, not the raw string, when the date is unparseable. -/
theorem claimC8_bad_dates :
    (∀ (store : List Char) (rt : Option ℚ) (acc : List PTxn) (line d x a g4 : List Char),
      (pyStrip line).isEmpty = false →
      containsSub preparedByTok line = false →
      pyStrip line ≠ ['-'] →
      lineMatch line = some (d, x, a, g4) →
      parseDMY d = none →
      ∃ tr, (parseStep store (rt, acc) line).2 = acc ++ [tr] ∧ tr.Date = d) ∧
    (∀ (doc : List (List Char)) (rows : List OutRow),
      process_single_pdf doc = Except.ok rows →
      rows.length = (allRecordsOf doc).length ∧
      rows.map OutRow.Date =
        (sortRecords (allRecordsOf doc)).map (fun t => (parseDMY t.Date).map formatDMY)) := by
  constructor
  · intro store rt acc line d x a g4 h1 h2 h3 hm _
    rw [parseStep_matched store (rt, acc) line d x a g4 h1 h2 h3 hm]
    exact ⟨_, rfl, rfl⟩
  · intro doc rows h
    simp only [process_single_pdf] at h
    by_cases hs : (extract_store_sections doc).isEmpty
    · rw [if_pos hs] at h; cases h
    · rw [if_neg hs] at h
      by_cases ha : (allRecordsOf doc).isEmpty
      · rw [if_pos ha] at h; cases h
      · rw [if_neg ha] at h
        cases h
        constructor
        · rw [List.length_map]
          exact (isortBy_perm keyLE _).length_eq
        · rw [List.map_map]
          rfl

/-- Witness for C8: the parser step on the concrete unparseable-date line. -/
theorem claimC8_bad_dates_witness :
    lineMatch ("31-Xxx-2024 Foo 1.00 1.00".toList) =
      some ("31-Xxx-2024".toList, "Foo".toList, "1.00".toList, "1.00".toList) ∧
    parseDMY ("31-Xxx-2024".toList) = none ∧
    (∃ tr, (parseStep ("S".toList) (none, []) ("31-Xxx-2024 Foo 1.00 1.00".toList)).2 =
        [] ++ [tr] ∧ tr.Date = "31-Xxx-2024".toList) :=
  ⟨by decide, by decide,
    claimC8_bad_dates.1 ("S".toList) none [] ("31-Xxx-2024 Foo 1.00 1.00".toList)
      ("31-Xxx-2024".toList) ("Foo".toList) ("1.00".toList) ("1.00".toList)
      (by decide) (by decide) (by decide) (by decide) (by decide)⟩

/-- A line that fails the header-boundary test leaves the header phase of the
loop inert. -/
theorem segLine_not_boundary (text : List Char) (st : SegState) (line : List Char)
    (hb : segBoundary text line = false) :
    segLine text st line = segAfterHeader st line := by
  unfold segLine
  cases hc : headerCapture line with
  | none => rfl
  | some g2 =>
    unfold segBoundary at hb
    rw [hc] at hb
    simp only [Option.isSome_some, Bool.true_and] at hb
    simp [hb]

/-- C4: within an entity's section, a non-header line containing
`"Date Amount Total"` only switches capture on and is not captured; a
non-header line containing `"TOTAL AS PER STATEMENT"` (and not the start
marker) only switches capture off, is not captured, and finalises nothing;
while capture is off no non-header line changes the body or the stored
sections; and a header line seen later finalises the current entity with its
already-captured body intact. -/
theorem claimC4_capture_window :
    (∀ (text : List Char) (st : SegState) (line : List Char),
      truthyStr st.current = true →
      containsSub dateAmountTotalTok line = true →
      segBoundary text line = false →
      segLine text st line = { st with capture := true }) ∧
    (∀ (text : List Char) (st : SegState) (line : List Char),
      truthyStr st.current = true →
      containsSub totalAsPerStatementTok line = true →
      containsSub dateAmountTotalTok line = false →
      segBoundary text line = false →
      segLine text st line = { st with capture := false }) ∧
    (∀ (text : List Char) (st : SegState) (line : List Char),
      st.capture = false →
      containsSub dateAmountTotalTok line = false →
      segBoundary text line = false →
      (segLine text st line).content = st.content ∧
      (segLine text st line).sections = st.sections) ∧
    (∀ (text : List Char) (st : SegState) (s g2 line : List Char),
      headerCapture line = some g2 →
      containsSub remittanceTok (sliceBeforeFirst text line) = true →
      st.current = some s → s ≠ [] → st.content ≠ [] →
      containsSub dateAmountTotalTok line = false →
      containsSub totalAsPerStatementTok line = false →
      segLine text st line =
        { sections := insertStore s (joinLines st.content) st.sections,
          current := some (pyStrip g2), content := [], capture := false }) := by
  refine ⟨?_, ?_, ?_, ?_⟩
  · intro text st line hcur hdat hb
    rw [segLine_not_boundary text st line hb]
    simp [segAfterHeader, hcur, hdat]
  · intro text st line hcur htaps hdat hb
    rw [segLine_not_boundary text st line hb]
    simp [segAfterHeader, hcur, hdat, htaps]
  · intro text st line hcap hdat hb
    rw [segLine_not_boundary text st line hb]
    unfold segAfterHeader
    simp only [hdat, Bool.and_false, Bool.false_eq_true, if_false]
    by_cases htaps : (truthyStr st.current && containsSub totalAsPerStatementTok line) = true
    · simp [htaps, hcap]
    · simp only [Bool.not_eq_true] at htaps
      simp [htaps, hcap]
  · intro text st s g2 line hc hrem hcur hs hcont hdat htaps
    unfold segLine
    rw [hc]
    simp only [hrem, if_true]
    unfold applyHeader segAfterHeader
    rw [hcur]
    simp only [List.isEmpty_eq_false.2 hs, List.isEmpty_eq_false.2 hcont,
      Bool.not_false, Bool.and_self, if_true, hdat, htaps, Bool.and_false,
      Bool.false_eq_true, if_false]

/-- Witness for C4: the start marker switches capture on for a current
entity, the stop marker switches it off without finalising, a quiet line
before the start marker captures nothing, and a second header finalises the
body built so far. -/
theorem claimC4_capture_window_witness :
    segLine [] ⟨[], some ("S".toList), [], false⟩ ("Date Amount Total".toList) =
      { sections := [], current := some ("S".toList), content := [], capture := true } ∧
    segLine [] ⟨[], some ("S".toList), ["L1".toList], true⟩ ("x TOTAL AS PER STATEMENT".toList) =
      { sections := [], current := some ("S".toList), content := ["L1".toList], capture := false } ∧
    segLine ("REMITTANCE\nB t/a - T".toList) ⟨[], some ("S".toList), ["L1".toList], true⟩
        ("B t/a - T".toList) =
      { sections := [(("S".toList), ("L1".toList))], current := some ("T".toList),
        content := [], capture := false } :=
  ⟨claimC4_capture_window.1 [] ⟨[], some ("S".toList), [], false⟩ ("Date Amount Total".toList)
      (by decide) (by decide) (by decide),
   claimC4_capture_window.2.1 [] ⟨[], some ("S".toList), ["L1".toList], true⟩
      ("x TOTAL AS PER STATEMENT".toList) (by decide) (by decide) (by decide) (by decide),
   claimC4_capture_window.2.2.2 ("REMITTANCE\nB t/a - T".toList)
      ⟨[], some ("S".toList), ["L1".toList], true⟩ ("S".toList) ("T".toList)
      ("B t/a - T".toList) (by decide) (by decide) (by decide) (by decide) (by decide)
      (by decide) (by decide)⟩

/-- C10: after capture was switched off, a later non-header line containing
`"Date Amount Total"` (same entity still current) switches capture back on,
so a table split across pages accumulates into one body: on the concrete
two-page document the entity's body is the concatenation of both pages'
transaction lines. -/
theorem claimC10_reenable :
    (∀ (text : List Char) (st : SegState) (line : List Char),
      truthyStr st.current = true →
      st.capture = false →
      containsSub dateAmountTotalTok line = true →
      segBoundary text line = false →
      segLine text st line = { st with capture := true }) ∧
    extract_store_sections exC10doc =
      [("S".toList, ("01-Jan-2024 P1 1.00 1.00\n02-Jan-2024 P2 2.00 3.00").toList)] := by
  constructor
  · intro text st line hcur _ hdat hb
    rw [segLine_not_boundary text st line hb]
    simp [segAfterHeader, hcur, hdat]
  · decide

/-- Witness for C10: the repeated column-header line on the second page
re-enables capture for the still-current entity. -/
theorem claimC10_reenable_witness :
    segLine ("Date Amount Total\nL2".toList) ⟨[], some ("S".toList), ["L1".toList], false⟩
        ("Date Amount Total".toList) =
      { sections := [], current := some ("S".toList), content := ["L1".toList],
        capture := true } :=
  claimC10_reenable.1 ("Date Amount Total\nL2".toList)
    ⟨[], some ("S".toList), ["L1".toList], false⟩ ("Date Amount Total".toList)
    (by decide) (by decide) (by decide) (by decide)

theorem isPre_append {n h : List Char} (t : List Char) (hp : isPre n h = true) :
    isPre n (h ++ t) = true := by
  induction n generalizing h with
  | nil => rfl
  | cons c cs ih =>
    cases h with
    | nil => simp [isPre] at hp
    | cons d ds =>
      simp only [isPre, Bool.and_eq_true] at hp ⊢
      exact ⟨hp.1, ih hp.2⟩

theorem findSub_append_isSome {n h : List Char} (t : List Char)
    (hc : (findSub h n).isSome = true) : (findSub (h ++ t) n).isSome = true := by
  induction h with
  | nil =>
    rw [findSub] at hc
    by_cases hp : isPre n [] = true
    · have hpt : isPre n t = true := by
        have h2 := isPre_append t hp
        rwa [List.nil_append] at h2
      rw [List.nil_append]
      cases t with
      | nil => rw [findSub, if_pos hp]; rfl
      | cons c cs => rw [findSub, if_pos hpt]; rfl
    · rw [if_neg hp] at hc
      simp at hc
  | cons c cs ih =>
    rw [List.cons_append, findSub]
    by_cases hp2 : isPre n (c :: (cs ++ t)) = true
    · rw [if_pos hp2]; rfl
    · rw [if_neg hp2]
      rw [findSub] at hc
      by_cases hp : isPre n (c :: cs) = true
      · refine absurd ?_ hp2
        have h2 := isPre_append t hp
        rwa [List.cons_append] at h2
      · rw [if_neg hp] at hc
        cases hcs : findSub cs n with
        | none => rw [hcs] at hc; simp at hc
        | some i =>
          have hsome : (findSub (cs ++ t) n).isSome = true := ih (by rw [hcs]; rfl)
          cases hct : findSub (cs ++ t) n with
          | none => rw [hct] at hsome; simp at hsome
          | some j => rfl

theorem containsSub_take {n text : List Char} (i : Nat)
    (hc : containsSub n (text.take i) = true) : containsSub n text = true := by
  unfold containsSub at hc ⊢
  rw [← List.take_append_drop i text]
  exact findSub_append_isSome (text.drop i) hc

/-- Counterexample for C1: on a two-page document with the `REMITTANCE`
marker on page one and the header on page two, the specification's
whole-document look-back accepts the header, but the source tests only the
current page's text, so the code yields no entity at all. -/
theorem claimC1_counterexample :
    specSeg exC1doc = [("Acme".toList, "01-Jan-2024 Foo 1.00 1.00".toList)] ∧
    extract_store_sections exC1doc = [] ∧
    extract_store_sections exC1doc ≠ specSeg exC1doc := by
  refine ⟨by decide, by decide, by decide⟩

/-- One line of the code's loop behaves exactly as the page-local boundary
wording prescribes. -/
theorem segLine_eq_specSegPageLine (text : List Char) (st : SegState) (line : List Char) :
    segLine text st line = specSegPageLine text st line := by
  unfold segLine specSegPageLine segBoundary
  cases hc : headerCapture line with
  | none => rfl
  | some g2 =>
    by_cases hrem : containsSub remittanceTok (sliceBeforeFirst text line) = true
    · simp [hrem]
    · simp only [Bool.not_eq_true] at hrem
      simp [hrem]

/-- C1 (amended): the segmenter's boundary decision is page-local — the code
coincides with the segmenter whose header test reads the current page's text
up to the first occurrence of the line — and it is sound for the document:
whenever a header line is accepted, `REMITTANCE` does occur in that page's
text (hence in the document), while a header whose page lacks a preceding
`REMITTANCE` creates no entity even if an earlier page contains the marker
(see the counterexample). -/
theorem claimC1_page_local :
    (∀ doc, extract_store_sections doc = specSegPage doc) ∧
    (∀ (text line : List Char), segBoundary text line = true →
      containsSub remittanceTok text = true) := by
  constructor
  · intro doc
    have hline : ∀ text : List Char, segLine text = specSegPageLine text := by
      intro text
      funext st line
      exact segLine_eq_specSegPageLine text st line
    unfold extract_store_sections specSegPage
    have hpage : segPage = fun st text => (splitLines text).foldl (specSegPageLine text) st := by
      funext st text
      unfold segPage
      rw [hline text]
    rw [hpage]
  · intro text line hb
    unfold segBoundary at hb
    rw [Bool.and_eq_true] at hb
    rcases hb with ⟨_, hrem⟩
    unfold sliceBeforeFirst at hrem
    cases hf : findSub text line with
    | some i => rw [hf] at hrem; exact containsSub_take i hrem
    | none => rw [hf] at hrem; exact containsSub_take (text.length - 1) hrem

/-- Witness for C1 (amended): a single-page header after the marker is
accepted and the marker indeed occurs in its page; the two-page document of
the counterexample agrees with the page-local reading. -/
theorem claimC1_page_local_witness :
    segBoundary ("REMITTANCE\nX t/a - A".toList) ("X t/a - A".toList) = true ∧
    containsSub remittanceTok ("REMITTANCE\nX t/a - A".toList) = true ∧
    extract_store_sections exC1doc = specSegPage exC1doc :=
  ⟨by decide,
   claimC1_page_local.2 ("REMITTANCE\nX t/a - A".toList) ("X t/a - A".toList) (by decide),
   claimC1_page_local.1 exC1doc⟩

/-- C9: a successful document's rows are the per-record finalisation (date
re-formatted to `DD-MMM-YYYY`, `none` for unparseable) of the record list
sorted by `(Store, parsed Date)` with unparseable dates ordered last within
their entity; the sorted list is ordered under `keyLE` and is a permutation
of the extracted records — nothing is dropped. -/
theorem claimC9_sort_order :
    ∀ (doc : List (List Char)) (rows : List OutRow),
      process_single_pdf doc = Except.ok rows →
      rows = (sortRecords (allRecordsOf doc)).map finalizeRow ∧
      (sortRecords (allRecordsOf doc)).Pairwise (fun a b => keyLE a b = true) ∧
      List.Perm (sortRecords (allRecordsOf doc)) (allRecordsOf doc) := by
  intro doc rows h
  simp only [process_single_pdf] at h
  by_cases hs : (extract_store_sections doc).isEmpty
  · rw [if_pos hs] at h; cases h
  · rw [if_neg hs] at h
    by_cases ha : (allRecordsOf doc).isEmpty
    · rw [if_pos ha] at h; cases h
    · rw [if_neg ha] at h
      cases h
      refine ⟨rfl, ?_, ?_⟩
      · exact pairwise_isortBy keyLE (fun a b c hab hbc => keyLE_trans hab hbc)
          keyLE_total (allRecordsOf doc)
      · exact isortBy_perm keyLE (allRecordsOf doc)

/-- Witness for C9: the mixed-entity, mixed-date document of the claim. -/
theorem claimC9_sort_order_witness :
    (∃ rows, process_single_pdf exC9doc = Except.ok rows) ∧
    (sortRecords (allRecordsOf exC9doc)).Pairwise (fun a b => keyLE a b = true) ∧
    List.Perm (sortRecords (allRecordsOf exC9doc)) (allRecordsOf exC9doc) := by
  have h : process_single_pdf exC9doc =
      Except.ok ((sortRecords (allRecordsOf exC9doc)).map finalizeRow) := by decide!
  exact ⟨⟨_, h⟩, (claimC9_sort_order exC9doc _ h).2.1, (claimC9_sort_order exC9doc _ h).2.2⟩

theorem length_takeWhile_le' (p : α → Bool) (l : List α) :
    (l.takeWhile p).length ≤ l.length := by
  induction l with
  | nil => simp
  | cons a as ih =>
    by_cases h : p a = true
    · rw [List.takeWhile_cons_of_pos h]
      simpa using ih
    · rw [List.takeWhile_cons_of_neg (by simpa using h)]
      simp

theorem takeWhile_append_all {p : α → Bool} {W : List α} (r : List α)
    (h : ∀ c ∈ W, p c = true) : (W ++ r).takeWhile p = W ++ r.takeWhile p := by
  induction W with
  | nil => simp
  | cons a as ih =>
    rw [List.cons_append, List.takeWhile_cons_of_pos (h a (List.mem_cons_self a as)),
      ih (fun c hc => h c (List.mem_cons_of_mem a hc)), List.cons_append]

theorem dropWhile_append_all {p : α → Bool} {W : List α} (r : List α)
    (h : ∀ c ∈ W, p c = true) : (W ++ r).dropWhile p = r.dropWhile p := by
  induction W with
  | nil => simp
  | cons a as ih =>
    rw [List.cons_append, List.dropWhile_cons_of_pos (h a (List.mem_cons_self a as)),
      ih (fun c hc => h c (List.mem_cons_of_mem a hc))]

theorem nonWS_of_digComma {c : Char} (h : isDigComma c = true) : isWS c = false := by
  by_contra hws
  simp only [Bool.not_eq_false] at hws
  unfold isWS at hws
  unfold isDigComma isDigitCh at h
  rcases (by simpa [or_assoc] using hws :
      c = ' ' ∨ c = '\t' ∨ c = '\n' ∨ c = '\r' ∨ c = '\x0b' ∨ c = '\x0c')
    with rfl | rfl | rfl | rfl | rfl | rfl <;> simp_all

theorem nonSign_of_digComma {c : Char} (h : isDigComma c = true) :
    (c = '+' || c = '-') = false := by
  by_contra hs
  simp only [Bool.not_eq_false] at hs
  unfold isDigComma isDigitCh at h
  rcases (by simpa using hs : c = '+' ∨ c = '-') with rfl | rfl <;> simp_all

theorem nonWS_of_sign {c : Char} (h : (c = '+' || c = '-') = true) : isWS c = false := by
  rcases (by simpa using h : c = '+' ∨ c = '-') with rfl | rfl <;> decide

/-- A string accepted by the tier-1 total test is non-empty and starts with a
digit or a dot — never whitespace. -/
theorem g4Tier1_head {t : List Char} (h : g4Tier1 t = true) :
    ∃ c cs, t = c :: cs ∧ isWS c = false := by
  cases t with
  | nil => simp [g4Tier1] at h
  | cons c cs =>
    refine ⟨c, cs, rfl, ?_⟩
    by_cases hd : isDigitCh c = true
    · by_contra hws
      simp only [Bool.not_eq_false] at hws
      unfold isWS at hws
      unfold isDigitCh at hd
      rcases (by simpa [or_assoc] using hws :
          c = ' ' ∨ c = '\t' ∨ c = '\n' ∨ c = '\r' ∨ c = '\x0b' ∨ c = '\x0c')
        with rfl | rfl | rfl | rfl | rfl | rfl <;> simp_all
    · unfold g4Tier1 at h
      rw [List.dropWhile_cons_of_neg (by simpa using hd)] at h
      cases cs with
      | nil => simp at h
      | cons a rest =>
        cases rest with
        | nil => simp at h
        | cons b rest2 =>
          simp only [Bool.and_eq_true, decide_eq_true_eq] at h
          rw [h.1.1.1]
          decide

theorem dateBody_inv {cs bd r : List Char} (h : dateBody cs = some (bd, r)) :
    cs = bd ++ r ∧ (∃ bs, bd = '-' :: bs) ∧ (∀ r', dateBody (bd ++ r') = some (bd, r')) := by
  rcases cs with _ | ⟨q1, _ | ⟨q2, _ | ⟨q3, _ | ⟨q4, _ | ⟨q5, _ | ⟨q6, _ | ⟨q7, _ | ⟨q8, _ | ⟨q9, rest⟩⟩⟩⟩⟩⟩⟩⟩⟩ <;>
    simp only [dateBody] at h
  pick_goal 10
  · by_cases hcond : (q1 = '-' && wordCh q2 && wordCh q3 && wordCh q4 && q5 = '-' &&
        isDigitCh q6 && isDigitCh q7 && isDigitCh q8 && isDigitCh q9) = true
    · rw [if_pos hcond] at h
      simp only [Option.some.injEq, Prod.mk.injEq] at h
      obtain ⟨hbd, hr⟩ := h
      subst hbd
      subst hr
      have hq1 : q1 = '-' := by
        simp only [Bool.and_eq_true, decide_eq_true_eq] at hcond
        exact hcond.1.1.1.1.1.1.1.1
      refine ⟨rfl, ⟨[q2, q3, q4, q5, q6, q7, q8, q9], by rw [hq1]⟩, ?_⟩
      intro r'
      simp only [List.cons_append, List.nil_append, dateBody, if_pos hcond]
    · rw [if_neg hcond] at h
      cases h
  all_goals cases h

theorem takeDate_inv {cs dd r : List Char} (h : takeDate cs = some (dd, r)) :
    cs = dd ++ r ∧ (∀ r', takeDate (dd ++ r') = some (dd, r')) := by
  rcases cs with _ | ⟨c1, _ | ⟨c2, cs2⟩⟩ <;> simp only [takeDate] at h
  · cases h
  · cases h
  by_cases h1 : isDigitCh c1 = true
  · rw [if_pos h1] at h
    by_cases h2 : isDigitCh c2 = true
    · rw [if_pos h2] at h
      cases hdb : dateBody cs2 with
      | none => rw [hdb] at h; cases h
      | some p =>
        obtain ⟨bd, rest⟩ := p
        rw [hdb] at h
        simp only [Option.some.injEq, Prod.mk.injEq] at h
        obtain ⟨hdd, hr⟩ := h
        subst hdd
        subst hr
        obtain ⟨hcs2, _, hall⟩ := dateBody_inv hdb
        constructor
        · rw [hcs2]
          rfl
        · intro r'
          have : (c1 :: c2 :: bd) ++ r' = c1 :: c2 :: (bd ++ r') := rfl
          rw [this, takeDate, if_pos h1, if_pos h2, hall r']
    · rw [if_neg h2] at h
      cases hdb : dateBody (c2 :: cs2) with
      | none => rw [hdb] at h; cases h
      | some p =>
        obtain ⟨bd, rest⟩ := p
        rw [hdb] at h
        simp only [Option.some.injEq, Prod.mk.injEq] at h
        obtain ⟨hdd, hr⟩ := h
        subst hdd
        subst hr
        obtain ⟨hcs2, ⟨bs, hbs⟩, hall⟩ := dateBody_inv hdb
        constructor
        · rw [List.cons_append, ← hcs2]
        · intro r'
          have heq : (c1 :: bd) ++ r' = c1 :: (bd ++ r') := rfl
          rw [heq, hbs, List.cons_append, takeDate, if_pos h1]
          have hdash : isDigitCh '-' = false := by decide
          rw [if_neg (by rw [hdash]; exact Bool.false_ne_true)]
          have := hall r'
          rw [hbs, List.cons_append] at this
          rw [this, ← hbs]
  · rw [if_neg h1] at h
    cases h

theorem takeDate_shape {cs dd r : List Char} (h : takeDate cs = some (dd, r)) :
    dateShapeB dd = true := by
  obtain ⟨_, hall⟩ := takeDate_inv h
  have := hall []
  rw [List.append_nil] at this
  unfold dateShapeB
  rw [this]
  rfl

theorem takeDate_complete {dd : List Char} (h : dateShapeB dd = true) :
    ∀ r, takeDate (dd ++ r) = some (dd, r) := by
  unfold dateShapeB at h
  cases ht : takeDate dd with
  | none => rw [ht] at h; cases h
  | some p =>
    obtain ⟨dd', rest⟩ := p
    rw [ht] at h
    have hrest : rest = [] := by
      cases rest with
      | nil => rfl
      | cons a as => simp at h
    subst hrest
    obtain ⟨hdd, hall⟩ := takeDate_inv ht
    rw [List.append_nil] at hdd
    subst hdd
    exact hall

theorem signedSepDec_cons (c : Char) (rest : List Char) :
    signedSepDec (c :: rest) =
      (!((if c = '+' || c = '-' then rest else c :: rest).takeWhile isDigComma).isEmpty &&
        match (if c = '+' || c = '-' then rest else c :: rest).dropWhile isDigComma with
        | e :: a :: b :: tail => e = '.' && isDigitCh a && isDigitCh b && tail.isEmpty
        | _ => false) := rfl

theorem signedSepDec_inv {aa : List Char} (h : signedSepDec aa = true) :
    ∃ sgn R d1 d2, aa = sgn ++ R ++ '.' :: d1 :: d2 :: [] ∧
      (sgn = [] ∨ sgn = ['+'] ∨ sgn = ['-']) ∧ R ≠ [] ∧
      (∀ c ∈ R, isDigComma c = true) ∧ isDigitCh d1 = true ∧ isDigitCh d2 = true := by
  cases aa with
  | nil => simp [signedSepDec] at h
  | cons c rest =>
    simp only [signedSepDec] at h
    by_cases hsgn : (c = '+' || c = '-') = true
    · rw [if_pos hsgn] at h
      rw [Bool.and_eq_true] at h
      obtain ⟨hrun, hmatch⟩ := h
      rcases hdw : rest.dropWhile isDigComma with _ | ⟨e, _ | ⟨a, _ | ⟨b, tail⟩⟩⟩ <;>
        rw [hdw] at hmatch
      · simp at hmatch
      · simp at hmatch
      · simp at hmatch
      have hmatch2 : (decide (e = '.') && isDigitCh a && isDigitCh b && tail.isEmpty) = true :=
        hmatch
      simp only [Bool.and_eq_true, decide_eq_true_eq, List.isEmpty_eq_true] at hmatch2
      obtain ⟨⟨⟨he, ha⟩, hb⟩, htail⟩ := hmatch2
      subst he
      subst htail
      refine ⟨[c], rest.takeWhile isDigComma, a, b, ?_, ?_, ?_, ?_, ha, hb⟩
      · have hz := List.takeWhile_append_dropWhile (p := isDigComma) (l := rest)
        rw [hdw] at hz
        conv_lhs => rw [← hz]
        rfl
      · rcases (by simpa using hsgn : c = '+' ∨ c = '-') with rfl | rfl
        · exact Or.inr (Or.inl rfl)
        · exact Or.inr (Or.inr rfl)
      · intro hempty
        rw [hempty] at hrun
        simp at hrun
      · intro x hx
        exact List.mem_takeWhile_imp hx
    · rw [if_neg hsgn] at h
      rw [Bool.and_eq_true] at h
      obtain ⟨hrun, hmatch⟩ := h
      rcases hdw : (c :: rest).dropWhile isDigComma with _ | ⟨e, _ | ⟨a, _ | ⟨b, tail⟩⟩⟩ <;>
        rw [hdw] at hmatch
      · simp at hmatch
      · simp at hmatch
      · simp at hmatch
      have hmatch2 : (decide (e = '.') && isDigitCh a && isDigitCh b && tail.isEmpty) = true :=
        hmatch
      simp only [Bool.and_eq_true, decide_eq_true_eq, List.isEmpty_eq_true] at hmatch2
      obtain ⟨⟨⟨he, ha⟩, hb⟩, htail⟩ := hmatch2
      subst he
      subst htail
      refine ⟨[], (c :: rest).takeWhile isDigComma, a, b, ?_, Or.inl rfl, ?_, ?_, ha, hb⟩
      · have hz := List.takeWhile_append_dropWhile (p := isDigComma) (l := c :: rest)
        rw [hdw] at hz
        rw [List.nil_append]
        conv_lhs => rw [← hz]
      · intro hempty
        rw [hempty] at hrun
        simp at hrun
      · intro x hx
        exact List.mem_takeWhile_imp hx

theorem signedSepDec_intro {sgn R : List Char} {d1 d2 : Char}
    (hsgn : sgn = [] ∨ sgn = ['+'] ∨ sgn = ['-']) (hR : R ≠ [])
    (hmem : ∀ c ∈ R, isDigComma c = true)
    (h1 : isDigitCh d1 = true) (h2 : isDigitCh d2 = true) :
    signedSepDec (sgn ++ R ++ '.' :: d1 :: d2 :: []) = true := by
  have hdot : isDigComma '.' = false := by decide
  have htw : (R ++ '.' :: d1 :: d2 :: []).takeWhile isDigComma = R := by
    rw [takeWhile_append_all _ hmem, List.takeWhile_cons_of_neg (by simp [hdot]),
      List.append_nil]
  have hdw : (R ++ '.' :: d1 :: d2 :: []).dropWhile isDigComma = '.' :: d1 :: d2 :: [] := by
    rw [dropWhile_append_all _ hmem, List.dropWhile_cons_of_neg (by simp [hdot])]
  rcases hsgn with rfl | rfl | rfl
  · rcases hRs : R with _ | ⟨rc, R2⟩
    · exact absurd hRs hR
    subst hRs
    rw [List.append_assoc, List.nil_append, List.cons_append, signedSepDec_cons]
    have hrc : (rc = '+' || rc = '-') = false :=
      nonSign_of_digComma (hmem rc (List.mem_cons_self rc R2))
    rw [if_neg (by rw [hrc]; exact Bool.false_ne_true), ← List.cons_append]
    rw [htw, hdw]
    simp [h1, h2]
  · rw [List.append_assoc, List.cons_append, List.nil_append, signedSepDec_cons]
    rw [if_pos (by decide), htw, hdw]
    simp [List.isEmpty_eq_false.2 hR, h1, h2]
  · rw [List.append_assoc, List.cons_append, List.nil_append, signedSepDec_cons]
    rw [if_pos (by decide), htw, hdw]
    simp [List.isEmpty_eq_false.2 hR, h1, h2]

theorem tryTailBody_sound {check : List Char → Bool} {sgn body aa t : List Char}
    (hs : sgn = [] ∨ sgn = ['+'] ∨ sgn = ['-'])
    (h : tryTailBody check sgn body = some (aa, t)) :
    ∃ w3, sgn ++ body = aa ++ (w3 ++ t) ∧ w3 ≠ [] ∧ (∀ c ∈ w3, isWS c = true) ∧
      signedSepDec aa = true ∧ check t = true := by
  unfold tryTailBody at h
  by_cases hrun : (body.takeWhile isDigComma).isEmpty = true
  · rw [if_pos hrun] at h; cases h
  rw [if_neg hrun] at h
  rcases hdwB : body.dropWhile isDigComma with _ | ⟨e, _ | ⟨a, _ | ⟨b, tail⟩⟩⟩ <;>
    rw [hdwB] at h <;> simp only [tryTailNum] at h
  · cases h
  · cases h
  · cases h
  by_cases heab : (e = '.' && isDigitCh a && isDigitCh b) = true
  swap
  · rw [if_neg heab] at h; cases h
  rw [if_pos heab] at h
  by_cases hw3 : (tail.takeWhile isWS).isEmpty = true
  · rw [if_pos hw3] at h; cases h
  rw [if_neg hw3] at h
  by_cases hck : check (tail.dropWhile isWS) = true
  swap
  · rw [if_neg hck] at h; cases h
  rw [if_pos hck] at h
  simp only [Option.some.injEq, Prod.mk.injEq] at h
  obtain ⟨haa, ht⟩ := h
  subst haa
  subst ht
  simp only [Bool.and_eq_true, decide_eq_true_eq] at heab
  obtain ⟨⟨he, ha⟩, hb⟩ := heab
  subst he
  have hbodyEq : body = (body.takeWhile isDigComma) ++ ('.' :: a :: b :: tail) := by
    conv_lhs => rw [← List.takeWhile_append_dropWhile (p := isDigComma) (l := body)]
    rw [hdwB]
  have htail : tail = tail.takeWhile isWS ++ tail.dropWhile isWS :=
    (List.takeWhile_append_dropWhile (p := isWS) (l := tail)).symm
  refine ⟨tail.takeWhile isWS, ?_, ?_, ?_, ?_, hck⟩
  · conv_lhs => rw [hbodyEq, htail]
    simp [List.append_assoc]
  · exact fun hh => hw3 (by rw [hh]; rfl)
  · intro x hx; exact List.mem_takeWhile_imp hx
  · apply signedSepDec_intro hs
    · exact fun hh => hrun (by rw [hh]; rfl)
    · intro x hx; exact List.mem_takeWhile_imp hx
    · exact ha
    · exact hb

theorem tryTail_sound {check : List Char → Bool} {cs aa t : List Char}
    (h : tryTail check cs = some (aa, t)) :
    ∃ w2 w3, cs = w2 ++ (aa ++ (w3 ++ t)) ∧ w2 ≠ [] ∧ (∀ c ∈ w2, isWS c = true) ∧
      w3 ≠ [] ∧ (∀ c ∈ w3, isWS c = true) ∧ signedSepDec aa = true ∧ check t = true := by
  unfold tryTail at h
  by_cases hw2 : (cs.takeWhile isWS).isEmpty = true
  · rw [if_pos hw2] at h; cases h
  rw [if_neg hw2] at h
  rcases hcs1 : cs.dropWhile isWS with _ | ⟨c, cs2⟩
  · rw [hcs1] at h; cases h
  rw [hcs1] at h
  simp only [tryTailAfterWS] at h
  have hcsEq : cs = cs.takeWhile isWS ++ (c :: cs2) := by
    conv_lhs => rw [← List.takeWhile_append_dropWhile (p := isWS) (l := cs)]
    rw [hcs1]
  have hmain : ∃ w3, c :: cs2 = aa ++ (w3 ++ t) ∧ w3 ≠ [] ∧ (∀ x ∈ w3, isWS x = true) ∧
      signedSepDec aa = true ∧ check t = true := by
    by_cases hsgn : (c = '+' || c = '-') = true
    · rw [if_pos hsgn] at h
      have hshape : [c] = ([] : List Char) ∨ [c] = ['+'] ∨ [c] = ['-'] := by
        rcases (by simpa using hsgn : c = '+' ∨ c = '-') with rfl | rfl
        · exact Or.inr (Or.inl rfl)
        · exact Or.inr (Or.inr rfl)
      obtain ⟨w3, heq, hne, hall, hssd, hck⟩ := tryTailBody_sound hshape h
      exact ⟨w3, heq, hne, hall, hssd, hck⟩
    · rw [if_neg hsgn] at h
      obtain ⟨w3, heq, hne, hall, hssd, hck⟩ := tryTailBody_sound (Or.inl rfl) h
      rw [List.nil_append] at heq
      exact ⟨w3, heq, hne, hall, hssd, hck⟩
  obtain ⟨w3, heq, hne, hall, hssd, hck⟩ := hmain
  refine ⟨cs.takeWhile isWS, w3, ?_, ?_, ?_, hne, hall, hssd, hck⟩
  · conv_lhs => rw [hcsEq]
    rw [heq]
  · exact fun hh => hw2 (by rw [hh]; rfl)
  · intro x hx; exact List.mem_takeWhile_imp hx

theorem tryTailBody_complete {check : List Char → Bool} {R w3 t : List Char} {d1 d2 : Char}
    (hR : R ≠ []) (hmem : ∀ c ∈ R, isDigComma c = true)
    (h1 : isDigitCh d1 = true) (h2 : isDigitCh d2 = true)
    (hw3 : w3 ≠ []) (hw3a : ∀ c ∈ w3, isWS c = true)
    (httw : t.takeWhile isWS = []) (htdw : t.dropWhile isWS = t)
    (hck : check t = true) (sgn : List Char) :
    (tryTailBody check sgn (R ++ ('.' :: d1 :: d2 :: (w3 ++ t)))).isSome = true := by
  have hdot : isDigComma '.' = false := by decide
  have hrun : (R ++ ('.' :: d1 :: d2 :: (w3 ++ t))).takeWhile isDigComma = R := by
    rw [takeWhile_append_all _ hmem, List.takeWhile_cons_of_neg (by simp [hdot]),
      List.append_nil]
  have hdrop : (R ++ ('.' :: d1 :: d2 :: (w3 ++ t))).dropWhile isDigComma =
      '.' :: d1 :: d2 :: (w3 ++ t) := by
    rw [dropWhile_append_all _ hmem, List.dropWhile_cons_of_neg (by simp [hdot])]
  have htw3 : (w3 ++ t).takeWhile isWS = w3 := by
    rw [takeWhile_append_all _ hw3a, httw, List.append_nil]
  have hdw3 : (w3 ++ t).dropWhile isWS = t := by
    rw [dropWhile_append_all _ hw3a, htdw]
  unfold tryTailBody
  rw [hrun, if_neg (by simp [List.isEmpty_eq_false.2 hR]), hdrop]
  simp only [tryTailNum]
  rw [if_pos (by simp [h1, h2])]
  rw [htw3, if_neg (by simp [List.isEmpty_eq_false.2 hw3])]
  rw [hdw3, if_pos hck]
  rfl

theorem tryTail_complete {check : List Char → Bool} {w2 aa w3 t : List Char}
    (hw2 : w2 ≠ []) (hw2a : ∀ c ∈ w2, isWS c = true)
    (hw3 : w3 ≠ []) (hw3a : ∀ c ∈ w3, isWS c = true)
    (haa : signedSepDec aa = true)
    (httw : t.takeWhile isWS = []) (htdw : t.dropWhile isWS = t)
    (hck : check t = true) :
    (tryTail check (w2 ++ (aa ++ (w3 ++ t)))).isSome = true := by
  obtain ⟨sgn, R, d1, d2, haaEq, hsgnShape, hR, hmem, h1, h2⟩ := signedSepDec_inv haa
  have hrest : aa ++ (w3 ++ t) = sgn ++ (R ++ ('.' :: d1 :: d2 :: (w3 ++ t))) := by
    rw [haaEq]
    simp [List.append_assoc]
  have hbodyDone := tryTailBody_complete hR hmem h1 h2 hw3 hw3a httw htdw hck
  have hafter : (tryTailAfterWS check (sgn ++ (R ++ ('.' :: d1 :: d2 :: (w3 ++ t))))).isSome
      = true := by
    rcases hsgnShape with rfl | rfl | rfl
    · rcases hRs : R with _ | ⟨rc, R2⟩
      · exact absurd hRs hR
      have hrc : (rc = '+' || rc = '-') = false :=
        nonSign_of_digComma (hmem rc (by rw [hRs]; exact List.mem_cons_self rc R2))
      show (tryTailAfterWS check (rc :: (R2 ++ ('.' :: d1 :: d2 :: (w3 ++ t))))).isSome
          = true
      simp only [tryTailAfterWS]
      rw [if_neg (by rw [hrc]; exact Bool.false_ne_true)]
      have hback : rc :: (R2 ++ ('.' :: d1 :: d2 :: (w3 ++ t))) =
          R ++ ('.' :: d1 :: d2 :: (w3 ++ t)) := by
        rw [hRs]
        rfl
      rw [hback]
      exact hbodyDone []
    · rw [List.cons_append, List.nil_append]
      simp only [tryTailAfterWS]
      rw [if_pos (by decide)]
      exact hbodyDone ['+']
    · rw [List.cons_append, List.nil_append]
      simp only [tryTailAfterWS]
      rw [if_pos (by decide)]
      exact hbodyDone ['-']
  have hhead : ∃ ac acs, sgn ++ (R ++ ('.' :: d1 :: d2 :: (w3 ++ t))) = ac :: acs ∧
      isWS ac = false := by
    rcases hsgnShape with rfl | rfl | rfl
    · rcases hRs : R with _ | ⟨rc, R2⟩
      · exact absurd hRs hR
      exact ⟨rc, R2 ++ ('.' :: d1 :: d2 :: (w3 ++ t)), by simp,
        nonWS_of_digComma (hmem rc (by rw [hRs]; exact List.mem_cons_self rc R2))⟩
    · exact ⟨'+', R ++ ('.' :: d1 :: d2 :: (w3 ++ t)), by simp, by decide⟩
    · exact ⟨'-', R ++ ('.' :: d1 :: d2 :: (w3 ++ t)), by simp, by decide⟩
  obtain ⟨ac, acs, hacEq, hacWS⟩ := hhead
  have htwAll : (w2 ++ (aa ++ (w3 ++ t))).takeWhile isWS = w2 := by
    rw [takeWhile_append_all _ hw2a, hrest, hacEq,
      List.takeWhile_cons_of_neg (by simp [hacWS]), List.append_nil]
  have hdwAll : (w2 ++ (aa ++ (w3 ++ t))).dropWhile isWS =
      sgn ++ (R ++ ('.' :: d1 :: d2 :: (w3 ++ t))) := by
    rw [dropWhile_append_all _ hw2a, hrest, hacEq,
      List.dropWhile_cons_of_neg (by simp [hacWS])]
  unfold tryTail
  rw [htwAll, if_neg (by simp [List.isEmpty_eq_false.2 hw2]), hdwAll]
  exact hafter

theorem mem_take_of_le_takeWhile {p : α → Bool} {l : List α} {k : Nat}
    (hk : k ≤ (l.takeWhile p).length) : ∀ c ∈ l.take k, p c = true := by
  intro c hc
  have heq : l.take k = (l.takeWhile p).take k := by
    conv_lhs => rw [← List.takeWhile_append_dropWhile (p := p) (l := l)]
    rw [List.take_append_of_le_length hk]
  rw [heq] at hc
  exact List.mem_takeWhile_imp (List.take_subset _ _ hc)

theorem searchDesc_isSome_iff (check : List Char → Bool) (rest : List Char) :
    (searchDesc check rest).isSome = true ↔
      ∃ k ∈ countdown (rest.takeWhile isWS).length,
        ∃ dl ∈ List.range ((rest.drop k).length + 1),
          (tryTail check ((rest.drop k).drop dl)).isSome = true := by
  unfold searchDesc
  rw [firstSome_isSome_iff]
  constructor
  · rintro ⟨k, hk, hin⟩
    simp only [firstSome_isSome_iff] at hin
    obtain ⟨dl, hdl, hmatch⟩ := hin
    refine ⟨k, hk, dl, hdl, ?_⟩
    rcases h : tryTail check ((rest.drop k).drop dl) with _ | ⟨a, t⟩
    · rw [h] at hmatch
      simp at hmatch
    · rfl
  · rintro ⟨k, hk, dl, hdl, htt⟩
    refine ⟨k, hk, ?_⟩
    obtain ⟨⟨a, t⟩, h⟩ := Option.isSome_iff_exists.1 htt
    simp only [firstSome_isSome_iff]
    refine ⟨dl, hdl, ?_⟩
    rw [h]
    rfl

theorem tierMatch_isSome_iff (check : List Char → Bool) (line : List Char) :
    (tierMatch check line).isSome = true ↔
      ∃ d rest, takeDate line = some (d, rest) ∧ (searchDesc check rest).isSome = true := by
  unfold tierMatch
  rcases h : takeDate line with _ | ⟨d, rest⟩
  · simp [h]
  · rcases h2 : searchDesc check rest with _ | ⟨x, a, t⟩ <;> simp [h, h2]
    exact ⟨d, rest, ⟨rfl, rfl⟩, by rw [h2]; rfl⟩

/-- C7 (counterexample to the spec's tier-A wording): the line
`01-Jan-2024 Foo 100.00 1,234.56` has the claimed shape — its total field
`1,234.56` is a fully-formed signed decimal with thousands separators — yet
`pattern1_match` does not match it (its fourth group admits no sign and no
comma). -/
theorem claimC7_counterexample :
    TierShape g4SpecOrig exC7line ∧ pattern1 exC7line = none := by
  constructor
  · exact ⟨"01-Jan-2024".toList, " ".toList, "Foo".toList, " ".toList,
      "100.00".toList, " ".toList, "1,234.56".toList,
      by decide, by decide, by decide, by decide, by decide, by decide,
      by decide, by decide, by decide, by decide⟩
  · decide

/-- C7 (amended): tier A matches exactly the lines of the form date,
description, amount, total where the total field is an optional unsigned
comma-free digit run followed by `.` and exactly two digits (`\d*\.\d{2}`,
whose digitless case is the bare fractional remainder such as `.50`). -/
theorem claimC7_tierA (line : List Char) :
    (pattern1 line).isSome = true ↔ TierShape g4Tier1 line := by
  constructor
  · intro h
    unfold pattern1 at h
    obtain ⟨d, rest, htd, hsd⟩ := (tierMatch_isSome_iff _ _).1 h
    obtain ⟨k, hkmem, dl, hdlmem, htt⟩ := (searchDesc_isSome_iff _ _).1 hsd
    obtain ⟨⟨aa, t⟩, hat⟩ := Option.isSome_iff_exists.1 htt
    obtain ⟨w2, w3, hdecomp, hw2, hw2a, hw3, hw3a, haa, hck⟩ := tryTail_sound hat
    obtain ⟨hline, _⟩ := takeDate_inv htd
    have hdS : dateShapeB d = true := takeDate_shape htd
    obtain ⟨h1k, hkle⟩ := mem_countdown.1 hkmem
    have hw1ne : rest.take k ≠ [] := by
      have hpos : 0 < (rest.take k).length := by
        rw [List.length_take]
        have := length_takeWhile_le' isWS rest
        omega
      exact List.length_pos.1 hpos
    refine ⟨d, rest.take k, (rest.drop k).take dl, w2, aa, w3, t, ?_, hdS, hw1ne,
      List.all_eq_true.2 (mem_take_of_le_takeWhile hkle), hw2,
      List.all_eq_true.2 hw2a, hw3, List.all_eq_true.2 hw3a, haa, hck⟩
    calc line = d ++ rest := hline
      _ = d ++ (rest.take k ++ rest.drop k) := by rw [List.take_append_drop]
      _ = d ++ (rest.take k ++ ((rest.drop k).take dl ++ (w2 ++ (aa ++ (w3 ++ t))))) := by
          rw [← hdecomp, List.take_append_drop dl (rest.drop k)]
  · intro h
    obtain ⟨dd, w1, x, w2, aa, w3, t, hline, hdS, hw1, hw1a, hw2, hw2a, hw3, hw3a,
      haa, hck⟩ := h
    obtain ⟨c0, cs0, htEq, hc0⟩ := g4Tier1_head hck
    have httw : t.takeWhile isWS = [] := by
      rw [htEq, List.takeWhile_cons_of_neg (by simp [hc0])]
    have htdw : t.dropWhile isWS = t := by
      rw [htEq, List.dropWhile_cons_of_neg (by simp [hc0])]
    unfold pattern1
    refine (tierMatch_isSome_iff _ _).2
      ⟨dd, w1 ++ (x ++ (w2 ++ (aa ++ (w3 ++ t)))), ?_, ?_⟩
    · rw [hline]
      exact takeDate_complete hdS _
    · refine (searchDesc_isSome_iff _ _).2 ⟨w1.length, ?_, x.length, ?_, ?_⟩
      · refine mem_countdown.2 ⟨List.length_pos.2 hw1, ?_⟩
        rw [takeWhile_append_all _ (List.all_eq_true.1 hw1a)]
        simp
      · rw [List.drop_left]
        exact List.mem_range.2 (Nat.lt_succ_of_le (by simp))
      · rw [List.drop_left, List.drop_left]
        exact tryTail_complete hw2 (List.all_eq_true.1 hw2a) hw3
          (List.all_eq_true.1 hw3a) haa httw htdw hck

/-- The amended tier-A characterization evaluated at a concrete matching
line whose total is the bare fractional remainder `.56`. -/
theorem claimC7_tierA_witness :
    TierShape g4Tier1 ("01-Jan-2024 Foo 100.00 .56".toList) :=
  (claimC7_tierA ("01-Jan-2024 Foo 100.00 .56".toList)).1 (by decide)
